import Mathlib

/-!
# Verification of the Knowrithm CLI against its specification

This file is a shallow embedding, in Lean 4, of the parts of the
`knowrithm-cli` Python code base that the specification's claims are about:

* the JSON value model and Python truthiness (`JVal`, `JVal.truthy`),
* the task-polling loop `KnowrithmClient.wait_for_task` (`client.py`),
* the name resolver with its UUID check, cache, and `difflib`-based fuzzy
  matching (`core/name_resolver.py`, plus the relevant parts of Python's
  `difflib.SequenceMatcher` / `get_close_matches`, which the source calls),
* the output formatter (`core/formatters.py`),
* the configuration store (`config.py`),
* the context store (`core/context.py`),
* the `company delete`, `agent delete` and `auth logout` command flows.

Machine floats of the Python source (similarity ratios, poll timers) are
modelled as rationals (`ℚ`); Python `dict`s are modelled as association
lists with Python's insertion-order update semantics.
-/

/-- A JSON-like Python value, as produced by `response.json()` and stored in
the CLI's JSON config/cache files.  `num` covers the integral numbers the
claims exercise; Python floats in data positions are out of scope. -/
inductive JVal where
  | null
  | bool (b : Bool)
  | num (n : Int)
  | str (s : String)
  | arr (elems : List JVal)
  | obj (fields : List (String × JVal))

namespace JVal

/-- Decidable equality for `JVal` (structural, like Python `==` on parsed
JSON trees restricted to this fragment). -/
def beqVal : JVal → JVal → Bool
  | .null, .null => true
  | .bool a, .bool b => a == b
  | .num a, .num b => a == b
  | .str a, .str b => a == b
  | .arr a, .arr b => beqList a b
  | .obj a, .obj b => beqFields a b
  | _, _ => false
where
  beqList : List JVal → List JVal → Bool
    | [], [] => true
    | x :: xs, y :: ys => beqVal x y && beqList xs ys
    | _, _ => false
  beqFields : List (String × JVal) → List (String × JVal) → Bool
    | [], [] => true
    | (k₁, v₁) :: xs, (k₂, v₂) :: ys => k₁ == k₂ && beqVal v₁ v₂ && beqFields xs ys
    | _, _ => false

instance : BEq JVal := ⟨beqVal⟩

mutual
theorem beqVal_refl : ∀ v : JVal, beqVal v v = true
  | .null => rfl
  | .bool b => by simp [beqVal]
  | .num n => by simp [beqVal]
  | .str s => by simp [beqVal]
  | .arr l => by simp [beqVal, beqList_refl l]
  | .obj f => by simp [beqVal, beqFields_refl f]

theorem beqList_refl : ∀ l : List JVal, beqVal.beqList l l = true
  | [] => rfl
  | x :: xs => by simp [beqVal.beqList, beqVal_refl x, beqList_refl xs]

theorem beqFields_refl : ∀ f : List (String × JVal), beqVal.beqFields f f = true
  | [] => rfl
  | (k, v) :: rest => by simp [beqVal.beqFields, beqVal_refl v, beqFields_refl rest]
end

mutual
theorem eq_of_beqVal : ∀ {a b : JVal}, beqVal a b = true → a = b
  | .null, .null, _ => rfl
  | .bool _, .bool _, h => by simpa [beqVal] using congrArg JVal.bool (by simpa [beqVal] using h)
  | .num _, .num _, h => by simpa [beqVal] using congrArg JVal.num (by simpa [beqVal] using h)
  | .str _, .str _, h => by simpa [beqVal] using congrArg JVal.str (by simpa [beqVal] using h)
  | .arr _, .arr _, h => congrArg JVal.arr (eq_of_beqList (by simpa [beqVal] using h))
  | .obj _, .obj _, h => congrArg JVal.obj (eq_of_beqFields (by simpa [beqVal] using h))

theorem eq_of_beqList : ∀ {a b : List JVal}, beqVal.beqList a b = true → a = b
  | [], [], _ => rfl
  | x :: xs, y :: ys, h => by
      have h' := h
      simp only [beqVal.beqList, Bool.and_eq_true] at h'
      exact congrArg₂ List.cons (eq_of_beqVal h'.1) (eq_of_beqList h'.2)

theorem eq_of_beqFields : ∀ {a b : List (String × JVal)}, beqVal.beqFields a b = true → a = b
  | [], [], _ => rfl
  | (k₁, v₁) :: xs, (k₂, v₂) :: ys, h => by
      have h' := h
      simp only [beqVal.beqFields, Bool.and_eq_true, beq_iff_eq] at h'
      have hk : k₁ = k₂ := h'.1.1
      have hv : v₁ = v₂ := eq_of_beqVal h'.1.2
      have ht : xs = ys := eq_of_beqFields h'.2
      simp [hk, hv, ht]
end

instance : DecidableEq JVal := fun a b =>
  if h : beqVal a b = true then
    .isTrue (eq_of_beqVal h)
  else
    .isFalse (fun he => h (he ▸ beqVal_refl a))

/-- Python truthiness of a JSON value: `None`, `False`, `0`, `""`, `[]`,
`{}` are falsy, everything else truthy. -/
def truthy : JVal → Bool
  | .null => false
  | .bool b => b
  | .num n => n != 0
  | .str s => s != ""
  | .arr l => !l.isEmpty
  | .obj f => !f.isEmpty

end JVal

/-- First association of a key in a field list (Python dicts have unique
keys, so this is dict lookup). -/
def jlookup : List (String × JVal) → String → Option JVal
  | [], _ => none
  | (k, v) :: rest, key => if k = key then some v else jlookup rest key

/-- `d.get(k)` on a dict value: `None` when the key is absent.  The embedding
only applies it where the source applies `.get` to a dict. -/
def pyGet (v : JVal) (k : String) : JVal :=
  match v with
  | .obj fs => (jlookup fs k).getD .null
  | _ => .null

/-- `d.get(k, default)` with an explicit default. -/
def pyGetD (v : JVal) (k : String) (default : JVal) : JVal :=
  match v with
  | .obj fs => (jlookup fs k).getD default
  | _ => default

/-- Python's `x or y`: `x` when truthy, else `y`. -/
def pyOr (a b : JVal) : JVal := if a.truthy then a else b

/-! ## Python `difflib` (the parts `NameResolver._fuzzy_match` calls)

`get_close_matches(word, possibilities, n=1, cutoff=0.6)` constructs one
`SequenceMatcher` with `isjunk=None` and `seq2 = word`, and for each
possibility `x` sets `seq1 = x`.  Sequences are strings, i.e. lists of
characters here.  Since `isjunk` is `None`, the junk set `bjunk` is empty;
the two `find_longest_match` extension loops that require `isbjunk(...)` to
be true therefore never run and are omitted, while the autojunk "popular"
purge of `b2j` is kept.  Float ratios are modelled as rationals. -/

namespace Difflib

/-- Ascending list of indices of `c` in `b` — the `b2j[elt]` chain built by
`SequenceMatcher.__chain_b` before the popularity purge. -/
def indicesOf (b : List Char) (c : Char) : List Nat :=
  (List.range b.length).filter (fun j => b.getD j ' ' = c)

/-- `b2j.get(c, [])` after `__chain_b`'s autojunk purge: for `len(b) >= 200`,
elements occurring more than `len(b) // 100 + 1` times are "popular" and
removed from the map. -/
def b2j (b : List Char) (c : Char) : List Nat :=
  if 200 ≤ b.length ∧ b.length / 100 + 1 < b.count c then []
  else indicesOf b c

/-- Inner loop of `find_longest_match`'s dynamic-programming phase: one pass
over the (in-range) occurrence indices `js` of `a[i]` in `b`, reading run
lengths from the previous row `j2lenOld` (`j2len.get(j-1, 0) + 1`; `j = 0`
reads Python's `j2len.get(-1, 0) = 0`), writing the new row, and bumping the
current best block on a strictly larger run. -/
def dpInner (j2lenOld : Nat → Nat) (i : Nat) :
    List Nat → (Nat → Nat) → (Nat × Nat × Nat) → ((Nat → Nat) × (Nat × Nat × Nat))
  | [], newRow, best => (newRow, best)
  | j :: js, newRow, best =>
      let k := (if j = 0 then 0 else j2lenOld (j - 1)) + 1
      let newRow' := fun j' => if j' = j then k else newRow j'
      let best' := if best.2.2 < k then (i + 1 - k, j + 1 - k, k) else best
      dpInner j2lenOld i js newRow' best'

/-- Outer loop of the dynamic-programming phase over `i in range(alo, ahi)`.
The `continue`/`break` guards on the ascending index list are the filter
`blo ≤ j < bhi`. -/
def dpLoop (a b : List Char) (blo bhi : Nat) :
    List Nat → (Nat → Nat) → (Nat × Nat × Nat) → (Nat × Nat × Nat)
  | [], _, best => best
  | i :: is, j2len, best =>
      let js := (b2j b (a.getD i ' ')).filter (fun j => blo ≤ j ∧ j < bhi)
      let (newRow, best') := dpInner j2len i js (fun _ => 0) best
      dpLoop a b blo bhi is newRow best'

/-- The dynamic-programming phase of `find_longest_match`, starting from
`besti, bestj, bestsize = alo, blo, 0` and an empty `j2len`. -/
def dpPhase (a b : List Char) (alo ahi blo bhi : Nat) : Nat × Nat × Nat :=
  dpLoop a b blo bhi (List.range' alo (ahi - alo)) (fun _ => 0) (alo, blo, 0)

/-- First (non-junk) extension loop of `find_longest_match`: how many steps
the best block extends backwards while `besti > alo`, `bestj > blo` and
`a[besti-1] == b[bestj-1]`.  Structural recursion on `besti`, which the
loop decrements by one per step (at `besti = 0` the `besti > alo` guard is
already false). -/
def extendBack (a b : List Char) (alo blo : Nat) : Nat → Nat → Nat
  | 0, _ => 0
  | besti + 1, bestj =>
      if alo < besti + 1 ∧ blo < bestj ∧ a.getD besti ' ' = b.getD (bestj - 1) ' '
      then extendBack a b alo blo besti (bestj - 1) + 1
      else 0

/-- Second (non-junk) extension loop: grow `bestsize` while
`besti+bestsize < ahi`, `bestj+bestsize < bhi` and the next characters
match.  The fuel argument is the loop's exact iteration bound
`ahi - (besti + size)`: when it reaches 0 the `besti+size < ahi` guard is
false anyway, so the recursion is faithful to the `while` loop. -/
def extendFwdAux (a b : List Char) (ahi bhi besti bestj : Nat) : Nat → Nat → Nat
  | 0, size => size
  | fuel + 1, size =>
      if besti + size < ahi ∧ bestj + size < bhi ∧
          a.getD (besti + size) ' ' = b.getD (bestj + size) ' '
      then extendFwdAux a b ahi bhi besti bestj fuel (size + 1)
      else size

/-- The final `bestsize` after the forward extension loop. -/
def extendFwd (a b : List Char) (ahi bhi besti bestj : Nat) (size : Nat) : Nat :=
  extendFwdAux a b ahi bhi besti bestj (ahi - (besti + size)) size

/-- `SequenceMatcher.find_longest_match(alo, ahi, blo, bhi)` with
`isjunk=None`: dynamic-programming phase, then the two non-junk extension
loops (the junk extension loops are vacuous because `bjunk` is empty). -/
def findLongestMatch (a b : List Char) (alo ahi blo bhi : Nat) : Nat × Nat × Nat :=
  let r := dpPhase a b alo ahi blo bhi
  let back := extendBack a b alo blo r.1 r.2.1
  let bi := r.1 - back
  let bj := r.2.1 - back
  let bs := extendFwd a b ahi bhi bi bj (r.2.2 + back)
  (bi, bj, bs)

/-- Total size of the matching blocks found by
`SequenceMatcher.get_matching_blocks` on the range
`(alo, ahi, blo, bhi)` — the queue in the source explores exactly this
recursion tree, and `ratio` only needs the sum of block sizes.  The `fuel`
argument makes the recursion structurally terminating; every recursive call
strictly shrinks `(ahi - alo) + (bhi - blo)`, so the top-level fuel
`len(a) + len(b) + 1` is never exhausted. -/
def matchedTotalAux (a b : List Char) : Nat → Nat → Nat → Nat → Nat → Nat
  | 0, _, _, _, _ => 0
  | fuel + 1, alo, ahi, blo, bhi =>
      let r := findLongestMatch a b alo ahi blo bhi
      let i := r.1
      let j := r.2.1
      let k := r.2.2
      if k = 0 then 0
      else
        k + (if alo < i ∧ blo < j then matchedTotalAux a b fuel alo i blo j else 0)
          + (if i + k < ahi ∧ j + k < bhi then matchedTotalAux a b fuel (i + k) ahi (j + k) bhi
             else 0)

/-- `sum(triple[-1] for triple in get_matching_blocks())` over the whole of
`a` and `b`. -/
def matchedTotal (a b : List Char) : Nat :=
  matchedTotalAux a b (a.length + b.length + 1) 0 a.length 0 b.length

/-- `difflib._calculate_ratio`. -/
def calculateRatio (m length : Nat) : ℚ :=
  if length ≠ 0 then 2 * (m : ℚ) / (length : ℚ) else 1

/-- `SequenceMatcher.ratio()` for `a = seq1`, `b = seq2`. -/
def ratio (a b : List Char) : ℚ :=
  calculateRatio (matchedTotal a b) (a.length + b.length)

/-- The `for elt in self.a` loop of `SequenceMatcher.quick_ratio()`:
`avail` tracks per-element remaining budget seeded from `fullbcount`. -/
def quickLoop (fullb : Char → Nat) : List Char → (Char → Option Int) → Nat → Nat
  | [], _, m => m
  | e :: rest, avail, m =>
      let numb : Int := match avail e with
        | some v => v
        | none => (fullb e : Int)
      quickLoop fullb rest (fun c => if c = e then some (numb - 1) else avail c)
        (if 0 < numb then m + 1 else m)

/-- The `matches` count computed by `quick_ratio()`. -/
def quickMatches (a b : List Char) : Nat :=
  quickLoop (fun c => b.count c) a (fun _ => none) 0

/-- `SequenceMatcher.quick_ratio()`. -/
def quickRatio (a b : List Char) : ℚ :=
  calculateRatio (quickMatches a b) (a.length + b.length)

/-- `SequenceMatcher.real_quick_ratio()`. -/
def realQuickRatio (a b : List Char) : ℚ :=
  calculateRatio (min a.length b.length) (a.length + b.length)

/-- Python string `<` on the underlying code points (used by tuple
comparison inside `heapq.nlargest`). -/
def strLtb : List Char → List Char → Bool
  | [], [] => false
  | [], _ :: _ => true
  | _ :: _, [] => false
  | c :: cs, d :: ds => if c < d then true else if d < c then false else strLtb cs ds

/-- Python tuple `<` on `(score, candidate)` pairs. -/
def pairLtb (p q : ℚ × List Char) : Bool :=
  decide (p.1 < q.1) || (decide (p.1 = q.1) && strLtb p.2 q.2)

/-- `heapq.nlargest(1, result)` — implemented in CPython as `max` over the
iterable, keeping the first maximal element. -/
def pyMax1 : List (ℚ × List Char) → Option (ℚ × List Char)
  | [] => none
  | p :: rest => some (rest.foldl (fun acc q => if pairLtb acc q then q else acc) p)

/-- `difflib.get_close_matches(word, possibilities, n=1, cutoff)`:
filter by the three ratio tests, then take the best scorer. -/
def getCloseMatches1 (word : List Char) (possibilities : List (List Char)) (cutoff : ℚ) :
    Option (List Char) :=
  let result := possibilities.filterMap (fun x =>
    if cutoff ≤ realQuickRatio x word ∧ cutoff ≤ quickRatio x word ∧ cutoff ≤ ratio x word
    then some (ratio x word, x) else none)
  (pyMax1 result).map Prod.snd

end Difflib

/-! ## Name resolver (`core/name_resolver.py`)

The resolver state is the loaded `name_cache.json`: a dict from category
name to a dict from (lower-cased) display name to ID.  API interaction is
modelled by an oracle argument `api : Option JVal`: `none` means the
`try` block raised (the source swallows the exception), `some v` the parsed
JSON response.  Observable side effects (cache/API lookups, the "Did you
mean" notice, cache writes) are recorded in an effect trace. -/

/-- Python `str.lower()` (the inputs the CLI handles are ASCII names;
`Char.toLower` agrees with Python there). -/
def pyLower (s : String) : String := ⟨s.data.map Char.toLower⟩

/-- Python `str.split(sep)` for a one-character separator: split at every
occurrence, keeping empty groups (`"".split("-") == [""]`). -/
def splitOnChar (sep : Char) : List Char → List (List Char)
  | [] => [[]]
  | c :: rest =>
      let r := splitOnChar sep rest
      if c = sep then [] :: r
      else
        match r with
        | [] => [[c]]
        | g :: gs => (c :: g) :: gs

/-- `NameResolver._is_uuid`: 36 characters, and splitting on `-` gives five
groups of lengths 8, 4, 4, 4, 12. -/
def isUuid (value : String) : Bool :=
  if value.data.length ≠ 36 then false
  else
    let parts := splitOnChar '-' value.data
    if parts.length ≠ 5 then false
    else (parts.map List.length) == [8, 4, 4, 4, 12]

/-- The loaded name cache: category → (lower-cased name → id). -/
abbrev NameCache := List (String × List (String × String))

/-- Dict lookup in a string-to-string dict. -/
def slookup : List (String × String) → String → Option String
  | [], _ => none
  | (k, v) :: rest, key => if k = key then some v else slookup rest key

/-- `self.cache.get(category, {})` — the category sub-dict, or empty. -/
def cacheCat (cache : NameCache) (cat : String) : List (String × String) :=
  match cache with
  | [] => []
  | (k, v) :: rest => if k = cat then v else cacheCat rest cat

/-- Whether `category in self.cache`. -/
def cacheHasCat (cache : NameCache) (cat : String) : Bool :=
  match cache with
  | [] => false
  | (k, _) :: rest => k = cat || cacheHasCat rest cat

/-- Python `if x:` on an optional string (`None` and `""` are falsy). -/
def truthyStr : Option String → Bool
  | none => false
  | some s => s != ""

/-- `NameResolver._fuzzy_match(category, name)`: `None` when the category is
missing; otherwise `difflib.get_close_matches(name.lower(), names, n=1,
cutoff=0.6)` over the category's keys, returning the matched key and its
cached ID (the matched name is always one of the keys, so the final dict
access cannot fail). -/
def fuzzyMatch (cache : NameCache) (category : String) (name : String) :
    Option (String × String) :=
  if cacheHasCat cache category then
    let entries := cacheCat cache category
    match Difflib.getCloseMatches1 (pyLower name).data (entries.map (fun e => e.1.data)) (3/5) with
    | some matched =>
        let matchedName := String.mk matched
        some (matchedName, (slookup entries matchedName).getD "")
    | none => none
  else none

/-- Observable resolver/command side effects. -/
inductive Effect where
  | cacheLookup (category key : String)
  | apiCall (method path : String)
  | notice (msg : String)
  | echo (msg : String)
  | confirmPrompt (msg : String)
  | cacheWrite (category key id : String)
deriving DecidableEq

deriving instance DecidableEq for Except

/-- Result of one resolver call: the returned ID or the raised
`ClickException` message, plus the trace of observable effects. -/
structure ResolveRun where
  result : Except String String
  effects : List Effect
deriving DecidableEq

/-- `v` rendered as the string the claims exercise (API IDs are JSON
strings; other shapes do not occur in the modelled runs). -/
def jstrD : JVal → String
  | .str s => s
  | _ => ""

/-- Whether `key in v` for a dict `v` (false on non-dicts, which in the
source either fail the containment test or raise inside the swallowed
`try`, reaching the same fallback). -/
def hasKey (v : JVal) (k : String) : Bool :=
  match v with
  | .obj fs => (jlookup fs k).isSome
  | _ => false

/-- The agent API lookup (`GET /api/v1/agent/by-name/{name}`): a hit needs a
truthy response containing `"id"`; the cached name is `response.get("name",
name_or_id)` (a non-string name raises in `_update_cache` inside the
swallowed `try`, so it is no hit). -/
def agentApiStep (api : Option JVal) (nameOrId : String) : Option (String × String) :=
  match api with
  | none => none
  | some resp =>
      if resp.truthy ∧ hasKey resp "id" then
        match pyGetD resp "name" (.str nameOrId) with
        | .str n => some (n, jstrD (pyGet resp "id"))
        | _ => none
      else none

/-- The client-side scan shared by the conversation/database/company
resolvers: walk the listed records, compare `record.get(field, "")`
case-insensitively with the input, and take the record's `"id"`.
`Except.error ()` models an exception inside the `try` block (non-dict
record, non-string field value, match without an `"id"` key), which the
source swallows before falling through to fuzzy matching. -/
def scanByField (field : String) (input : String) : List JVal → Except Unit (Option (String × String))
  | [] => .ok none
  | rec :: rest =>
      match rec with
      | .obj fields =>
          match (jlookup fields field).getD (.str "") with
          | .str value =>
              if pyLower value = pyLower input then
                match jlookup fields "id" with
                | some idv => .ok (some (value, jstrD idv))
                | none => .error ()
              else scanByField field input rest
          | _ => .error ()
      | _ => .error ()

/-- The conversation/company style API step: `response.get("data", [])`
scanned by title/name.  A response that is not a dict raises on `.get`
inside the swallowed `try`. -/
def listingApiStep (field : String) (api : Option JVal) (input : String) :
    Option (String × String) :=
  match api with
  | none => none
  | some resp =>
      match resp with
      | .obj _ =>
          match pyGetD resp "data" (.arr []) with
          | .arr l =>
              match scanByField field input l with
              | .ok r => r
              | .error _ => none
          | _ => none
      | _ => none

/-- The database API step differs only in
`response.get("data", []) if isinstance(response, dict) else response`:
a bare JSON list response is scanned directly. -/
def databaseApiStep (api : Option JVal) (input : String) : Option (String × String) :=
  match api with
  | none => none
  | some resp =>
      match resp with
      | .obj _ =>
          match pyGetD resp "data" (.arr []) with
          | .arr l =>
              match scanByField "name" input l with
              | .ok r => r
              | .error _ => none
          | _ => none
      | .arr l =>
          match scanByField "name" input l with
          | .ok r => r
          | .error _ => none
      | _ => none

/-- Shared tail of every resolver: try fuzzy matching (when enabled), then
raise the category's "not found" `ClickException`.  The advisory notice is
printed inside `_fuzzy_match` before its result is tested for truthiness. -/
def resolveFuzzyTail (cache : NameCache) (category : String) (nameOrId : String)
    (fuzzy : Bool) (eff : List Effect) (notFound : String) : ResolveRun :=
  if fuzzy then
    match fuzzyMatch cache category nameOrId with
    | some (matchedName, fid) =>
        let eff' := eff ++ [.notice ("Did you mean '" ++ matchedName ++
          "'? Using that instead of '" ++ nameOrId ++ "'.")]
        if fid ≠ "" then ⟨.ok fid, eff'⟩ else ⟨.error notFound, eff'⟩
    | none => ⟨.error notFound, eff⟩
  else ⟨.error notFound, eff⟩

/-- Core of the four resolvers after the UUID test: cache consult (when
`useCache`), the per-category API step, then the fuzzy/not-found tail. -/
def resolveCore (cache : NameCache) (category : String) (nameOrId : String)
    (useCache fuzzy : Bool) (apiEffect : Effect)
    (apiHit : Option (String × String)) (notFound : String) : ResolveRun :=
  let cached : Option String :=
    if useCache then slookup (cacheCat cache category) (pyLower nameOrId) else none
  let preEff : List Effect :=
    if useCache then [.cacheLookup category (pyLower nameOrId)] else []
  if truthyStr cached then ⟨.ok (cached.getD ""), preEff⟩
  else
    let eff := preEff ++ [apiEffect]
    match apiHit with
    | some (name, idv) =>
        ⟨.ok idv, eff ++ [.cacheWrite category (pyLower name) idv]⟩
    | none => resolveFuzzyTail cache category nameOrId fuzzy eff notFound

/-- `NameResolver.resolve_agent`. -/
def resolveAgent (cache : NameCache) (api : Option JVal) (nameOrId : String)
    (useCache fuzzy : Bool) : ResolveRun :=
  if isUuid nameOrId then ⟨.ok nameOrId, []⟩
  else
    resolveCore cache "agents" nameOrId useCache fuzzy
      (.apiCall "GET" ("/api/v1/agent/by-name/" ++ nameOrId))
      (agentApiStep api nameOrId)
      ("Agent '" ++ nameOrId ++ "' not found. Use 'knowrithm agent list' to see available agents.")

/-- `NameResolver.resolve_conversation`. -/
def resolveConversation (cache : NameCache) (api : Option JVal) (nameOrId : String)
    (useCache fuzzy : Bool) : ResolveRun :=
  if isUuid nameOrId then ⟨.ok nameOrId, []⟩
  else
    resolveCore cache "conversations" nameOrId useCache fuzzy
      (.apiCall "GET" "/api/v1/conversation")
      (listingApiStep "title" api nameOrId)
      ("Conversation '" ++ nameOrId ++
        "' not found. Use 'knowrithm conversation list' to see available conversations.")

/-- `NameResolver.resolve_database`. -/
def resolveDatabase (cache : NameCache) (api : Option JVal) (nameOrId : String)
    (useCache fuzzy : Bool) : ResolveRun :=
  if isUuid nameOrId then ⟨.ok nameOrId, []⟩
  else
    resolveCore cache "databases" nameOrId useCache fuzzy
      (.apiCall "GET" "/api/v1/database-connection")
      (databaseApiStep api nameOrId)
      ("Database '" ++ nameOrId ++
        "' not found. Use 'knowrithm database list' to see available connections.")

/-- `NameResolver.resolve_company`. -/
def resolveCompany (cache : NameCache) (api : Option JVal) (nameOrId : String)
    (useCache fuzzy : Bool) : ResolveRun :=
  if isUuid nameOrId then ⟨.ok nameOrId, []⟩
  else
    resolveCore cache "companies" nameOrId useCache fuzzy
      (.apiCall "GET" "/api/v1/super-admin/company")
      (listingApiStep "name" api nameOrId)
      ("Company '" ++ nameOrId ++
        "' not found. Use 'knowrithm superadmin companies list' to see available companies.")

/-! ## `KnowrithmClient.wait_for_task` (`client.py`)

The loop is modelled over the finite sequence of status responses the
polled endpoint returns, one `JVal` per poll, with the float timer in `ℚ`.
`elapsed` starts at `0.0` and grows by `poll_interval` after each
non-terminal poll; the timeout test is Python's
`if timeout and elapsed >= timeout`, i.e. disabled for `timeout == 0`.
`exhausted` marks a modelled run whose observed response sequence ended
before the loop did (the real loop would keep polling). -/

inductive TaskOutcome where
  | success (v : JVal)
  | failed (msg : JVal)
  | timedOut
  | exhausted
deriving DecidableEq

/-- `response.get("state") or response.get("status")`. -/
def stateOf (r : JVal) : JVal := pyOr (pyGet r "state") (pyGet r "status")

/-- `state in {"SUCCESS", "completed", "finished"}`. -/
def isSuccessState (v : JVal) : Bool :=
  v == .str "SUCCESS" || v == .str "completed" || v == .str "finished"

/-- `state in {"FAILURE", "failed", "error"}`. -/
def isFailureState (v : JVal) : Bool :=
  v == .str "FAILURE" || v == .str "failed" || v == .str "error"

/-- The `while True` body of `wait_for_task`, returning the outcome and the
number of polls performed. -/
def waitLoop (taskId : String) (pollInterval timeout : ℚ) :
    List JVal → ℚ → TaskOutcome × Nat
  | [], _ => (.exhausted, 0)
  | r :: rest, elapsed =>
      let state := stateOf r
      if isSuccessState state then
        (.success (pyOr (pyGet r "result") r), 1)
      else if isFailureState state then
        (.failed (pyOr (pyGet r "error")
          (pyOr (pyGet r "message") (.str ("Task " ++ taskId ++ " failed.")))), 1)
      else if timeout ≠ 0 ∧ timeout ≤ elapsed then
        (.timedOut, 1)
      else
        let rec' := waitLoop taskId pollInterval timeout rest (elapsed + pollInterval)
        (rec'.1, rec'.2 + 1)

/-- `KnowrithmClient.wait_for_task(task_id, poll_interval, timeout)` run
against the response sequence `rs`. -/
def waitForTask (taskId : String) (rs : List JVal) (pollInterval timeout : ℚ) :
    TaskOutcome × Nat :=
  waitLoop taskId pollInterval timeout rs 0

/-- A response in a terminal state (success or failure). -/
def isTerminal (r : JVal) : Bool := isSuccessState (stateOf r) || isFailureState (stateOf r)

/-! ## Output formatter (`core/formatters.py`)

`format_table` is modelled up to (but not including) the terminal renderer:
it returns either the literal "No data to display" message or the filtered
row list handed to `_format_rich_table`/`_format_simple_table`.  Both
renderers are deterministic functions of that row list, so two calls with
equal `TableResult`s print identical tables. -/

inductive TableResult where
  | message (s : String)
  | table (rows : List JVal)
deriving DecidableEq

namespace Formatter

/-- The fixed "list envelope" key priority of `format_table`. -/
def listKeys : List String :=
  ["data", "agents", "documents", "connection", "databases",
   "conversations", "leads", "companies", "users", "website_sources"]

/-- The fixed "single entity" envelope keys of `format_table`. -/
def singleEntityKeys : List String :=
  ["agent", "document", "conversation", "lead",
   "company", "user", "database_connection", "website_source"]

/-- First key of `ks` present in `fields` with a list value. -/
def findListKey (fields : List (String × JVal)) : List String → Option (List JVal)
  | [] => none
  | k :: ks =>
      match jlookup fields k with
      | some (.arr l) => some l
      | _ => findListKey fields ks

/-- First key of `ks` present in `fields` with a dict value. -/
def findSingleKey (fields : List (String × JVal)) : List String → Option JVal
  | [] => none
  | k :: ks =>
      match jlookup fields k with
      | some (.obj o) => some (.obj o)
      | _ => findSingleKey fields ks

/-- First field (in insertion order) whose value is a list and whose key is
not `"pagination"`. -/
def firstListField : List (String × JVal) → Option (List JVal)
  | [] => none
  | (k, v) :: rest =>
      match v with
      | .arr l => if k ≠ "pagination" then some l else firstListField rest
      | _ => firstListField rest

/-- The single-dict unwrapping chain of `format_table`: known list keys,
then known single-entity keys, then the first list-valued field, then the
dict itself as a one-element list. -/
def unwrapTable (fields : List (String × JVal)) : List JVal :=
  match findListKey fields listKeys with
  | some l => l
  | none =>
      match findSingleKey fields singleEntityKeys with
      | some o => [o]
      | none =>
          match firstListField fields with
          | some l => l
          | none => [.obj fields]

/-- `_filter_essential_columns`'s entity-type detection on the first row. -/
def entityType (fields : List (String × JVal)) : Option String :=
  let hasK := fun k => (jlookup fields k).isSome
  if hasK "model_name" || hasK "llm_settings_id" then some "agent"
  else if hasK "original_filename" || hasK "document_type" then some "document"
  else if hasK "database_type" || hasK "host" then some "database"
  else if hasK "message_count" || hasK "agent_id" then some "conversation"
  else if hasK "subscription_tier" || hasK "company_name" then some "company"
  else if hasK "username" && hasK "role" then some "user"
  else if hasK "source" && hasK "email" then some "lead"
  else none

/-- The fixed per-entity essential column lists. -/
def essentialColumns : String → List String
  | "agent" => ["id", "name", "status", "model_name", "total_conversations",
                "total_messages", "created_at"]
  | "document" => ["id", "original_filename", "status", "word_count", "document_type",
                   "created_at"]
  | "database" => ["id", "name", "database_type", "host", "status", "created_at"]
  | "conversation" => ["id", "title", "agent_id", "status", "message_count", "created_at"]
  | "lead" => ["id", "name", "email", "phone", "status", "source", "created_at"]
  | "company" => ["id", "name", "status", "subscription_tier", "created_at"]
  | "user" => ["id", "username", "email", "role", "status", "last_login"]
  | _ => []

/-- Keep, per dict row, only the fields whose key is in `cols` (insertion
order preserved); non-dict rows are dropped, as in the source's
`if isinstance(item, dict)` append. -/
def restrictFields (cols : List String) (l : List JVal) : List JVal :=
  l.filterMap (fun item =>
    match item with
    | .obj f => some (.obj (f.filter (fun kv => cols.contains kv.1)))
    | _ => none)

/-- `Formatter._filter_essential_columns`. -/
def filterEssential (data : List JVal) : List JVal :=
  match data with
  | [] => data
  | first :: _ =>
      match first with
      | .obj f0 =>
          match entityType f0 with
          | some et => restrictFields (essentialColumns et) data
          | none =>
              if 10 < f0.length then
                restrictFields ((f0.map Prod.fst).take 10) data
              else data
      | _ => data

/-- `Formatter.format_table` up to the renderer. -/
def formatTable (data : JVal) : TableResult :=
  if ¬ data.truthy then .message "No data to display"
  else
    match data with
    | .obj fields =>
        let l := unwrapTable fields
        if l.isEmpty then .message "No data to display" else .table (filterEssential l)
    | .arr l =>
        -- a truthy list is non-empty, so the second emptiness test passes
        .table (filterEssential l)
    | _ => .message "No data to display"

/-- Python `str()` of a JSON value (`repr` for nested containers); names and
values exercised by the claims contain no characters needing `repr`
escapes. -/
def pyStr : JVal → String
  | .null => "None"
  | .bool b => if b then "True" else "False"
  | .num n => toString n
  | .str s => s
  | .arr l => pyReprList l
  | .obj f => pyReprObj f
where
  pyRepr : JVal → String
    | .null => "None"
    | .bool b => if b then "True" else "False"
    | .num n => toString n
    | .str s => "'" ++ s ++ "'"
    | .arr l => pyReprList l
    | .obj f => pyReprObj f
  pyReprList : List JVal → String
    | l => "[" ++ ", ".intercalate (reprItems l) ++ "]"
  reprItems : List JVal → List String
    | [] => []
    | v :: rest => pyRepr v :: reprItems rest
  pyReprObj : List (String × JVal) → String
    | f => "\x7b" ++ ", ".intercalate (reprFields f) ++ "\x7d"
  reprFields : List (String × JVal) → List String
    | [] => []
    | (k, v) :: rest => ("'" ++ k ++ "': " ++ pyRepr v) :: reprFields rest

/-- csv QUOTE_MINIMAL: quote a field that contains the delimiter, the quote
character or a line-terminator character, doubling inner quotes. -/
def csvQuote (s : String) : String :=
  if s.data.any (fun c => c = ',' || c = '"' || c = '\r' || c = '\n') then
    "\"" ++ (s.replace "\"" "\"\"") ++ "\""
  else s

/-- One physical csv record: comma-joined fields and CRLF. -/
def csvLine (cells : List String) : String := String.intercalate "," cells ++ "\r\n"

/-- The first-seen union of row keys (`format_csv`'s `keys` loop); `none`
models the `AttributeError` raised on a non-dict row. -/
def collectKeys : List JVal → List String → Option (List String)
  | [], acc => some acc
  | .obj fs :: rest, acc =>
      collectKeys rest (fs.foldl (fun a kv => if a.contains kv.1 then a else a ++ [kv.1]) acc)
  | _ :: _, _ => none

/-- One `DictWriter` cell: `rowdict.get(key, restval=None)`, with `None`
written as the empty string and other values through `str()`. -/
def csvCell (row : List (String × JVal)) (key : String) : String :=
  match jlookup row key with
  | some .null => ""
  | some v => csvQuote (pyStr v)
  | none => ""

/-- `writeheader()` plus `writerows(data)`. -/
def csvRender (keys : List String) (rows : List JVal) : String :=
  csvLine (keys.map csvQuote) ++
    String.join (rows.map (fun row =>
      match row with
      | .obj fs => csvLine (keys.map (csvCell fs))
      | _ => ""))

/-- `Formatter.format_csv`: unwrap only the `data` envelope, return `""` for
a falsy value, else emit header and rows.  `none` models the exception the
source raises when iterating a truthy non-list or reading keys of a
non-dict row. -/
def formatCsv (data : JVal) : Option String :=
  let data' : JVal :=
    match data with
    | .obj fields =>
        match jlookup fields "data" with
        | some (.arr l) => .arr l
        | _ => .arr [data]
    | _ => data
  if ¬ data'.truthy then some ""
  else
    match data' with
    | .arr rows => (collectKeys rows []).map (fun keys => csvRender keys rows)
    | _ => none

/-- Lower-case hex digit. -/
def hexDigit (n : Nat) : Char := "0123456789abcdef".data.getD n '0'

/-- `\uXXXX` escape body. -/
def hex4 (n : Nat) : String :=
  String.mk [hexDigit (n / 4096 % 16), hexDigit (n / 256 % 16),
             hexDigit (n / 16 % 16), hexDigit (n % 16)]

/-- JSON string escaping as `json.dumps(..., ensure_ascii=False)` performs
it: the two mandatory escapes, the short control escapes, `\uXXXX` for the
remaining control characters, everything else verbatim. -/
def jsonEscapeChar (c : Char) : String :=
  if c = '"' then "\\\""
  else if c = '\\' then "\\\\"
  else if c = '\n' then "\\n"
  else if c = '\t' then "\\t"
  else if c = '\r' then "\\r"
  else if c.toNat = 8 then "\\b"
  else if c.toNat = 12 then "\\f"
  else if c.toNat < 32 then "\\u" ++ hex4 c.toNat
  else String.singleton c

/-- `2 * n` spaces — `json.dumps(..., indent=2)` indentation at depth `n`. -/
def jsonIndent (n : Nat) : String := String.mk (List.replicate (2 * n) ' ')

/-- `json.dumps(data, indent=2, ensure_ascii=False)`. -/
def jsonDumps (v : JVal) : String := go v 0
where
  go : JVal → Nat → String
    | .null, _ => "null"
    | .bool b, _ => if b then "true" else "false"
    | .num n, _ => toString n
    | .str s, _ => "\"" ++ String.join (s.data.map jsonEscapeChar) ++ "\""
    | .arr [], _ => "[]"
    | .arr (x :: xs), lvl =>
        "[\n" ++ String.intercalate ",\n" (items (x :: xs) (lvl + 1)) ++
          "\n" ++ jsonIndent lvl ++ "]"
    | .obj [], _ => "\x7b\x7d"
    | .obj (f :: fs), lvl =>
        "\x7b\n" ++ String.intercalate ",\n" (fields (f :: fs) (lvl + 1)) ++
          "\n" ++ jsonIndent lvl ++ "\x7d"
  items : List JVal → Nat → List String
    | [], _ => []
    | x :: xs, lvl => (jsonIndent lvl ++ go x lvl) :: items xs lvl
  fields : List (String × JVal) → Nat → List String
    | [], _ => []
    | (k, x) :: xs, lvl =>
        (jsonIndent lvl ++ "\"" ++ String.join (k.data.map jsonEscapeChar) ++ "\": " ++
          go x lvl) :: fields xs lvl

/-- `Formatter.format_json` is exactly a `json.dumps` call. -/
def formatJson (data : JVal) : String := jsonDumps data

/-- `Formatter.format_yaml` with PyYAML available: a plain `yaml.dump` call
on the unmodified value; the external encoder is an oracle parameter. -/
def formatYaml (yamlDump : JVal → String) (data : JVal) : String := yamlDump data

end Formatter

/-! ## Configuration store (`config.py`)

A loaded configuration is a Python dict; `PyDict` models it as an
association list with dict update semantics (existing key replaced in
place, new key appended). -/

abbrev PyDict := List (String × JVal)

/-- `d[k] = v`. -/
def dSet : PyDict → String → JVal → PyDict
  | [], k, v => [(k, v)]
  | (k', v') :: rest, k, v =>
      if k' = k then (k, v) :: rest else (k', v') :: dSet rest k v

/-- `config.setdefault("auth", {})` applied to the whole dict: the dict
after a possible insertion. -/
def setdefaultAuth (cfg : PyDict) : PyDict :=
  if (jlookup cfg "auth").isSome then cfg else cfg ++ [("auth", .obj [])]

/-- The value `config.setdefault("auth", {})` evaluates to. -/
def authValue (cfg : PyDict) : JVal := (jlookup cfg "auth").getD (.obj [])

/-- `config.store_jwt_tokens(access_token, refresh_token, expires_at=...)`
on a loaded configuration: merge into the `jwt` sub-dict, setting
`refresh_token`/`expires_at` only when passed.  `none` models the
`AttributeError`/`TypeError` the source would raise on a non-dict `auth`
or `jwt` entry (never produced by `load_config`). -/
def store_jwt_tokens (cfg : PyDict) (accessToken : String)
    (refreshToken expiresAt : Option String) : Option PyDict :=
  match authValue cfg with
  | .obj authFields =>
      match (jlookup authFields "jwt").getD (.obj []) with
      | .obj jwtFields =>
          let jwt1 := dSet jwtFields "access_token" (.str accessToken)
          let jwt2 := match refreshToken with
            | some r => dSet jwt1 "refresh_token" (.str r)
            | none => jwt1
          let jwt3 := match expiresAt with
            | some e => dSet jwt2 "expires_at" (.str e)
            | none => jwt2
          some (dSet (setdefaultAuth cfg) "auth" (.obj (dSet authFields "jwt" (.obj jwt3))))
      | _ => none
  | _ => none

/-- `config.clear_jwt_tokens()` on a loaded configuration:
`config.setdefault("auth", {})["jwt"] = {}`. -/
def clear_jwt_tokens (cfg : PyDict) : Option PyDict :=
  match authValue cfg with
  | .obj authFields => some (dSet (setdefaultAuth cfg) "auth" (.obj (dSet authFields "jwt" (.obj []))))
  | _ => none

/-- The `jwt` block of a loaded configuration
(`config.get("auth", {}).get("jwt", {})`). -/
def jwtBlock (cfg : PyDict) : JVal :=
  pyGetD (pyGetD (.obj cfg) "auth" (.obj [])) "jwt" (.obj [])

/-! ## Context store (`core/context.py`)

A `Context` holds the three id/label pairs; every mutator ends in
`_save()`, which serialises exactly the six fields, so each operation
returns the new in-memory state together with the JSON object written to
`context.json`. -/

structure Context where
  agent_id : Option String
  agent_name : Option String
  conversation_id : Option String
  conversation_title : Option String
  organization_id : Option String
  organization_name : Option String
deriving DecidableEq

namespace Context

/-- `Context._save()`'s `data` dict. -/
def save (c : Context) : PyDict :=
  let j := fun (o : Option String) => match o with
    | some s => JVal.str s
    | none => JVal.null
  [("agent_id", j c.agent_id), ("agent_name", j c.agent_name),
   ("conversation_id", j c.conversation_id), ("conversation_title", j c.conversation_title),
   ("organization_id", j c.organization_id), ("organization_name", j c.organization_name)]

/-- Python `name or fallback` for the optional label arguments
(`None` and `""` both fall back). -/
def orFallback (name : Option String) (fallback : String) : String :=
  match name with
  | some n => if n ≠ "" then n else fallback
  | none => fallback

/-- `Context.set_agent(agent_id, agent_name=None)`. -/
def set_agent (c : Context) (agentId : String) (agentName : Option String) :
    Context × PyDict :=
  let c' := { c with agent_id := some agentId,
                     agent_name := some (orFallback agentName agentId) }
  (c', c'.save)

/-- `Context.set_conversation(conversation_id, conversation_title=None)`. -/
def set_conversation (c : Context) (conversationId : String)
    (conversationTitle : Option String) : Context × PyDict :=
  let c' := { c with conversation_id := some conversationId,
                     conversation_title := some (orFallback conversationTitle conversationId) }
  (c', c'.save)

/-- `Context.set_organization(organization_id, organization_name=None)`. -/
def set_organization (c : Context) (organizationId : String)
    (organizationName : Option String) : Context × PyDict :=
  let c' := { c with organization_id := some organizationId,
                     organization_name := some (orFallback organizationName organizationId) }
  (c', c'.save)

/-- `Context.clear_agent()`. -/
def clear_agent (c : Context) : Context × PyDict :=
  let c' := { c with agent_id := none, agent_name := none }
  (c', c'.save)

/-- `Context.clear_conversation()`. -/
def clear_conversation (c : Context) : Context × PyDict :=
  let c' := { c with conversation_id := none, conversation_title := none }
  (c', c'.save)

/-- `Context.clear_organization()`. -/
def clear_organization (c : Context) : Context × PyDict :=
  let c' := { c with organization_id := none, organization_name := none }
  (c', c'.save)

/-- `Context.clear_all()`. -/
def clear_all (_c : Context) : Context × PyDict :=
  let c' : Context := ⟨none, none, none, none, none, none⟩
  (c', c'.save)

/-- The pairing invariant: each `*_id` is present exactly when its paired
label is present. -/
def pairedInvariant (c : Context) : Prop :=
  (c.agent_id.isSome ↔ c.agent_name.isSome) ∧
  (c.conversation_id.isSome ↔ c.conversation_title.isSome) ∧
  (c.organization_id.isSome ↔ c.organization_name.isSome)

end Context

/-! ## Command flows (`commands/company.py`, `commands/agent.py`,
`commands/auth.py`)

Each command run is modelled as its observable effect trace plus the
process exit code; the HTTP layer is an oracle (response bodies and, for
`logout`, the status code).  An extra `printed` effect stands for the
final `click.echo(format_output(...))` of a successful command. -/

/-- A command-level observable step. -/
inductive CmdEffect where
  | request (method path : String)
  | echo (msg : String)
  | echoErr (msg : String)
  | confirmPrompt (msg : String)
  | printed (response : JVal)
deriving DecidableEq

/-- One command invocation: effects in order, then the exit code. -/
structure CmdRun where
  effects : List CmdEffect
  exit : Nat
deriving DecidableEq

/-- `company delete <company_id>` (`delete_company` with an ID argument;
the interactive no-argument picker branch is not exercised by the claims).
The function has no `--yes` option and no confirmation prompt: it issues
the DELETE and prints the formatted response. -/
def delete_company (companyId : String) (deleteResponse : JVal) : CmdRun :=
  { effects := [.request "DELETE" ("/api/v1/company/" ++ companyId),
                .printed deleteResponse],
    exit := 0 }

/-- `agent delete <agent_name_or_id> [--yes]` (`delete_agent` with a
name/ID argument).  `confirmAnswer` is the operator's reply to the
confirmation prompt (only consulted when `--yes` is absent);
`deleteResponse` carries no `task_id` in the modelled runs, so the
async-wait tail is the direct display of the response. -/
def delete_agent (cache : NameCache) (api : Option JVal) (nameOrId : String)
    (yes : Bool) (confirmAnswer : Bool) (deleteResponse : JVal) : CmdRun :=
  let r := resolveAgent cache api nameOrId true true
  let resolveEff := r.effects.filterMap (fun e =>
    match e with
    | .apiCall m p => some (CmdEffect.request m p)
    | .notice m => some (CmdEffect.echoErr m)
    | _ => none)
  match r.result with
  | .error e => { effects := resolveEff ++ [.echoErr e], exit := 1 }
  | .ok agentId =>
      let msg := "Are you sure you want to delete agent '" ++ nameOrId ++ "'?"
      if yes then
        { effects := resolveEff ++ [.request "DELETE" ("/api/v1/agent/" ++ agentId),
                      .printed deleteResponse],
          exit := 0 }
      else if confirmAnswer then
        { effects := resolveEff ++ [.confirmPrompt msg,
                      .request "DELETE" ("/api/v1/agent/" ++ agentId),
                      .printed deleteResponse],
          exit := 0 }
      else
        { effects := resolveEff ++ [.confirmPrompt msg, .echo "Cancelled."], exit := 0 }

/-- Python whitespace for `str.strip()` (the ASCII subset; the modelled
messages contain no exotic whitespace). -/
def isPySpace (c : Char) : Bool :=
  c = ' ' || c = '\t' || c = '\n' || c = '\r' || c = '\x0b' || c = '\x0c'

/-- `str.strip()`. -/
def pyStrip (s : String) : String :=
  ⟨((s.data.dropWhile isPySpace).reverse.dropWhile isPySpace).reverse⟩

/-- The message of the `KnowrithmAPIError` raised by
`KnowrithmClient._handle_error`: `[HTTP <code>]` plus the first truthy of
the body's `error`/`message`/`detail` fields (when the body parsed as
JSON), else the raw text, falling back to "Unknown error" when blank. -/
def apiErrorMessage (status : Nat) (parsed : Option JVal) (rawText : String) : String :=
  let msg : JVal := match parsed with
    | some d => pyOr (pyGet d "error") (pyOr (pyGet d "message")
        (pyOr (pyGet d "detail") (.str rawText)))
    | none => .str rawText
  let text := pyStrip (Formatter.pyStr msg)
  "[HTTP " ++ toString status ++ "] " ++ (if text ≠ "" then text else "Unknown error")

/-- `KnowrithmClient._maybe_json` for a body already known to be JSON or
empty (the modelled responses): parsed JSON when present, `{}` for an
empty body. -/
def maybeJson (parsed : Option JVal) : JVal :=
  match parsed with
  | some v => v
  | none => .obj []

/-- `auth logout`: POST the revoke endpoint, and — only if the client did
not raise for `status >= 400` — clear the cached JWT tokens and print.
The outer `Option` is the `load_config` shape assumption of
`clear_jwt_tokens`; the `Except` is the propagated `KnowrithmAPIError`. -/
def logout (cfg : PyDict) (status : Nat) (parsed : Option JVal) (rawText : String) :
    Option (Except String PyDict × List CmdEffect) :=
  if 400 ≤ status then
    some (.error (apiErrorMessage status parsed rawText),
          [.request "POST" "/api/v1/auth/logout"])
  else
    match clear_jwt_tokens cfg with
    | some cfg' =>
        some (.ok cfg',
          [.request "POST" "/api/v1/auth/logout",
           .echo "Logged out and cleared cached tokens.",
           .printed (maybeJson parsed)])
    | none => none

/-! ## Helper lemmas -/

/-- Lookup after a dict update. -/
theorem jlookup_dSet (d : PyDict) (k : String) (v : JVal) (k' : String) :
    jlookup (dSet d k v) k' = if k = k' then some v else jlookup d k' :=
  by
  induction d with
  | nil => simp [dSet, jlookup]
  | cons p rest ih =>
      obtain ⟨pk, pv⟩ := p
      by_cases hpk : pk = k
      · subst hpk
        by_cases hq : pk = k'
        · simp [dSet, jlookup, hq]
        · simp [dSet, jlookup, hq]
      · simp only [dSet, hpk, if_false, jlookup]
        by_cases hq : pk = k'
        · subst hq
          have hk : ¬ (k = pk) := fun h => hpk h.symm
          simp [jlookup, hk]
        · simp [jlookup, hq, ih]

/-- Lookup across a dict append. -/
theorem jlookup_append (d e : PyDict) (k : String) :
    jlookup (d ++ e) k = ((jlookup d k).rec (jlookup e k) (fun v => some v)) :=
  by
  induction d with
  | nil => simp [jlookup]
  | cons p rest ih =>
      obtain ⟨pk, pv⟩ := p
      by_cases h : pk = k <;> simp [jlookup, h, ih]

/-- Lookup in the dict after `setdefault("auth", {})`. -/
theorem jlookup_setdefaultAuth (cfg : PyDict) (k : String) :
    jlookup (setdefaultAuth cfg) k =
      if k = "auth" then some (authValue cfg) else jlookup cfg k :=
  by
  unfold setdefaultAuth authValue
  cases hl : jlookup cfg "auth" with
  | some v =>
      simp only [Option.isSome, hl, if_true]
      by_cases h : k = "auth"
      · subst h; simp [hl]
      · simp [h]
  | none =>
      simp only [hl, Option.isSome_none, Bool.false_eq_true, if_false]
      rw [jlookup_append]
      by_cases h : k = "auth"
      · subst h; simp [hl, jlookup]
      · have h2 : ¬ ("auth" = k) := fun hcontra => h hcontra.symm
        cases hc : jlookup cfg k <;> simp [hc, jlookup, h, h2]

/-- The post-UUID core of every resolver records at least one cache or API
lookup in its trace. -/
theorem resolveCore_effects_ne_nil (cache : NameCache) (cat n : String)
    (uc fz : Bool) (apiEff : Effect) (hit : Option (String × String)) (nf : String) :
    (resolveCore cache cat n uc fz apiEff hit nf).effects ≠ [] :=
  by
  unfold resolveCore resolveFuzzyTail
  cases uc with
  | false =>
      simp only [if_false, Bool.false_eq_true, truthyStr]
      cases hit with
      | some p => obtain ⟨nm, idv⟩ := p; simp
      | none =>
          cases fz with
          | false => simp
          | true =>
              simp only [if_true]
              cases fuzzyMatch cache cat n with
              | some p =>
                  obtain ⟨mn, fid⟩ := p
                  by_cases hf : fid ≠ "" <;> simp [hf]
              | none => simp
  | true =>
      simp only [if_true]
      by_cases ht : truthyStr (slookup (cacheCat cache cat) (pyLower n)) = true
      · simp [ht]
      · simp only [Bool.not_eq_true] at ht
        simp only [ht, Bool.false_eq_true, if_false]
        cases hit with
        | some p => obtain ⟨nm, idv⟩ := p; simp
        | none =>
            cases fz with
            | false => simp
            | true =>
                simp only [if_true]
                cases fuzzyMatch cache cat n with
                | some p =>
                    obtain ⟨mn, fid⟩ := p
                    by_cases hf : fid ≠ "" <;> simp [hf]
                | none => simp

/-- C7: every resolver treats an input as already resolved — returning it
unchanged with an empty effect trace — exactly when it has UUID shape: 36
characters whose split on `-` gives five groups of lengths 8, 4, 4, 4, 12;
the canonical example UUID passes, "Support Bot" and a 36-character string
with hyphens in the wrong positions fail. -/
theorem C7_uuid_shortcircuit :
    (∀ (cache : NameCache) (api : Option JVal) (s : String) (uc fz : Bool),
      (resolveAgent cache api s uc fz = ⟨.ok s, []⟩ ↔ isUuid s = true) ∧
      (resolveConversation cache api s uc fz = ⟨.ok s, []⟩ ↔ isUuid s = true) ∧
      (resolveDatabase cache api s uc fz = ⟨.ok s, []⟩ ↔ isUuid s = true) ∧
      (resolveCompany cache api s uc fz = ⟨.ok s, []⟩ ↔ isUuid s = true)) ∧
    (∀ s : String, isUuid s = true ↔
      (s.data.length = 36 ∧ (splitOnChar '-' s.data).map List.length = [8, 4, 4, 4, 12])) ∧
    isUuid "550e8400-e29b-41d4-a716-446655440000" = true ∧
    isUuid "Support Bot" = false ∧
    isUuid "550e8400-e29b-41d4-a71644-6655440000" = false :=
  by
  refine ⟨?_, ?_, by decide, by decide, by decide⟩
  · intro cache api s uc fz
    refine ⟨?_, ?_, ?_, ?_⟩ <;>
    · constructor
      · intro h
        by_contra hne
        have hu : isUuid s = false := by
          cases hval : isUuid s
          · rfl
          · exact absurd hval hne
        first
        | (have hnnil := resolveCore_effects_ne_nil cache "agents" s uc fz
              (.apiCall "GET" ("/api/v1/agent/by-name/" ++ s)) (agentApiStep api s)
              ("Agent '" ++ s ++ "' not found. Use 'knowrithm agent list' to see available agents.")
           simp only [resolveAgent, hu, Bool.false_eq_true, if_false] at h
           rw [h] at hnnil
           exact hnnil rfl)
        | (have hnnil := resolveCore_effects_ne_nil cache "conversations" s uc fz
              (.apiCall "GET" "/api/v1/conversation") (listingApiStep "title" api s)
              ("Conversation '" ++ s ++ "' not found. Use 'knowrithm conversation list' to see available conversations.")
           simp only [resolveConversation, hu, Bool.false_eq_true, if_false] at h
           rw [h] at hnnil
           exact hnnil rfl)
        | (have hnnil := resolveCore_effects_ne_nil cache "databases" s uc fz
              (.apiCall "GET" "/api/v1/database-connection") (databaseApiStep api s)
              ("Database '" ++ s ++ "' not found. Use 'knowrithm database list' to see available connections.")
           simp only [resolveDatabase, hu, Bool.false_eq_true, if_false] at h
           rw [h] at hnnil
           exact hnnil rfl)
        | (have hnnil := resolveCore_effects_ne_nil cache "companies" s uc fz
              (.apiCall "GET" "/api/v1/super-admin/company") (listingApiStep "name" api s)
              ("Company '" ++ s ++ "' not found. Use 'knowrithm superadmin companies list' to see available companies.")
           simp only [resolveCompany, hu, Bool.false_eq_true, if_false] at h
           rw [h] at hnnil
           exact hnnil rfl)
      · intro h
        simp [resolveAgent, resolveConversation, resolveDatabase, resolveCompany, h]
  · intro s
    unfold isUuid
    by_cases h36 : s.data.length = 36
    · by_cases h5 : (splitOnChar '-' s.data).length = 5
      · simp [h36, h5]
      · simp only [h36, ne_eq, not_true_eq_false, if_false, h5, not_false_eq_true, if_true]
        constructor
        · intro h; simp at h
        · intro h
          have hlen : (splitOnChar '-' s.data).length = 5 := by
            have := congrArg List.length h.2
            simpa using this
          exact absurd hlen h5
    · simp only [ne_eq, h36, not_false_eq_true, if_true]
      constructor
      · intro h; simp at h
      · intro h; exact h.1.elim

/-- C8: `store_jwt_tokens` merges into `auth.jwt` rather than replacing it —
storing only a new access token preserves a previously stored
`refresh_token` and `expires_at`, updates `access_token`, and leaves every
configuration field outside `auth.jwt` (the other top-level fields and the
other `auth` entries) unchanged. -/
theorem C8_store_jwt_tokens_merges (cfg cfg' : PyDict) (access : String)
    (h : store_jwt_tokens cfg access none none = some cfg') :
    pyGet (jwtBlock cfg') "refresh_token" = pyGet (jwtBlock cfg) "refresh_token" ∧
    pyGet (jwtBlock cfg') "expires_at" = pyGet (jwtBlock cfg) "expires_at" ∧
    pyGet (jwtBlock cfg') "access_token" = .str access ∧
    (∀ k, k ≠ "auth" → jlookup cfg' k = jlookup cfg k) ∧
    (∀ k, k ≠ "jwt" → pyGet (authValue cfg') k = pyGet (authValue cfg) k) :=
  by
  cases hA : authValue cfg with
  | obj authFields =>
      cases hJ : (jlookup authFields "jwt").getD (.obj []) with
      | obj jwtFields =>
          simp only [store_jwt_tokens, hA, hJ, Option.some.injEq] at h
          subst h
          have hauth' : ∀ k', jlookup (dSet (setdefaultAuth cfg) "auth"
              (.obj (dSet authFields "jwt"
                (.obj (dSet jwtFields "access_token" (.str access)))))) k' =
              if "auth" = k' then some (.obj (dSet authFields "jwt"
                (.obj (dSet jwtFields "access_token" (.str access)))))
              else jlookup (setdefaultAuth cfg) k' :=
            fun k' => jlookup_dSet _ _ _ _
          have hA' : (jlookup cfg "auth").getD (JVal.obj []) = JVal.obj authFields := hA
          refine ⟨?_, ?_, ?_, ?_, ?_⟩
          · simp [jwtBlock, pyGetD, hauth', jlookup_dSet, pyGet, hA', hJ]
          · simp [jwtBlock, pyGetD, hauth', jlookup_dSet, pyGet, hA', hJ]
          · simp [jwtBlock, pyGetD, hauth', jlookup_dSet, pyGet]
          · intro k hk
            rw [hauth' k, if_neg (fun hc => hk hc.symm), jlookup_setdefaultAuth,
              if_neg hk]
          · intro k hk
            have e1 : authValue (dSet (setdefaultAuth cfg) "auth"
                (JVal.obj (dSet authFields "jwt"
                  (JVal.obj (dSet jwtFields "access_token" (JVal.str access)))))) =
                JVal.obj (dSet authFields "jwt"
                  (JVal.obj (dSet jwtFields "access_token" (JVal.str access)))) := by
              unfold authValue
              rw [jlookup_dSet]
              simp
            rw [e1]
            simp only [pyGet]
            rw [jlookup_dSet, if_neg (fun hc => hk hc.symm)]
      | null => simp [store_jwt_tokens, hA, hJ] at h
      | bool b => simp [store_jwt_tokens, hA, hJ] at h
      | num n => simp [store_jwt_tokens, hA, hJ] at h
      | str s => simp [store_jwt_tokens, hA, hJ] at h
      | arr l => simp [store_jwt_tokens, hA, hJ] at h
  | null => simp [store_jwt_tokens, hA] at h
  | bool b => simp [store_jwt_tokens, hA] at h
  | num n => simp [store_jwt_tokens, hA] at h
  | str s => simp [store_jwt_tokens, hA] at h
  | arr l => simp [store_jwt_tokens, hA] at h

/-- Witness for C8 at a concrete configuration holding a refresh token and
an expiry. -/
theorem C8_store_jwt_tokens_merges_witness :
    pyGet (jwtBlock (dSet [("base_url", .str "u"),
        ("auth", .obj [("jwt", .obj [("access_token", .str "NEW"),
          ("refresh_token", .str "R"), ("expires_at", .str "E")]), ("api_key", .obj [])])]
        "auth" (.obj [("jwt", .obj [("access_token", .str "NEW"),
          ("refresh_token", .str "R"), ("expires_at", .str "E")]), ("api_key", .obj [])])))
      "refresh_token" =
    pyGet (jwtBlock [("base_url", .str "u"),
        ("auth", .obj [("jwt", .obj [("access_token", .str "OLD"),
          ("refresh_token", .str "R"), ("expires_at", .str "E")]), ("api_key", .obj [])])])
      "refresh_token" :=
  by
  have h := C8_store_jwt_tokens_merges
    [("base_url", .str "u"),
     ("auth", .obj [("jwt", .obj [("access_token", .str "OLD"),
       ("refresh_token", .str "R"), ("expires_at", .str "E")]), ("api_key", .obj [])])]
    (dSet [("base_url", .str "u"),
     ("auth", .obj [("jwt", .obj [("access_token", .str "NEW"),
       ("refresh_token", .str "R"), ("expires_at", .str "E")]), ("api_key", .obj [])])]
     "auth" (.obj [("jwt", .obj [("access_token", .str "NEW"),
       ("refresh_token", .str "R"), ("expires_at", .str "E")]), ("api_key", .obj [])]))
    "NEW" (by decide)
  exact h.1

/-- C9: every context-store operation preserves the id/label pairing
invariant; each set operation stores both members of its pair and writes
the serialized new state, and each clear operation nulls both members of
its pair (clear_all nulls all six fields). -/
theorem C9_context_pairing (c : Context) (hinv : Context.pairedInvariant c)
    (idv : String) (nm : Option String) :
    (Context.pairedInvariant (Context.set_agent c idv nm).1 ∧
      (Context.set_agent c idv nm).1.agent_id = some idv ∧
      ((Context.set_agent c idv nm).1.agent_name).isSome = true ∧
      (Context.set_agent c idv nm).2 = (Context.set_agent c idv nm).1.save) ∧
    (Context.pairedInvariant (Context.set_conversation c idv nm).1 ∧
      (Context.set_conversation c idv nm).1.conversation_id = some idv ∧
      ((Context.set_conversation c idv nm).1.conversation_title).isSome = true ∧
      (Context.set_conversation c idv nm).2 = (Context.set_conversation c idv nm).1.save) ∧
    (Context.pairedInvariant (Context.set_organization c idv nm).1 ∧
      (Context.set_organization c idv nm).1.organization_id = some idv ∧
      ((Context.set_organization c idv nm).1.organization_name).isSome = true ∧
      (Context.set_organization c idv nm).2 = (Context.set_organization c idv nm).1.save) ∧
    (Context.pairedInvariant (Context.clear_agent c).1 ∧
      (Context.clear_agent c).1.agent_id = none ∧
      (Context.clear_agent c).1.agent_name = none ∧
      (Context.clear_agent c).2 = (Context.clear_agent c).1.save) ∧
    (Context.pairedInvariant (Context.clear_conversation c).1 ∧
      (Context.clear_conversation c).1.conversation_id = none ∧
      (Context.clear_conversation c).1.conversation_title = none ∧
      (Context.clear_conversation c).2 = (Context.clear_conversation c).1.save) ∧
    (Context.pairedInvariant (Context.clear_organization c).1 ∧
      (Context.clear_organization c).1.organization_id = none ∧
      (Context.clear_organization c).1.organization_name = none ∧
      (Context.clear_organization c).2 = (Context.clear_organization c).1.save) ∧
    (Context.pairedInvariant (Context.clear_all c).1 ∧
      (Context.clear_all c).1 = ⟨none, none, none, none, none, none⟩ ∧
      (Context.clear_all c).2 = (Context.clear_all c).1.save) :=
  by
  obtain ⟨h1, h2, h3⟩ := hinv
  refine ⟨⟨⟨?_, ?_, ?_⟩, rfl, rfl, rfl⟩, ⟨⟨?_, ?_, ?_⟩, rfl, rfl, rfl⟩,
    ⟨⟨?_, ?_, ?_⟩, rfl, rfl, rfl⟩, ⟨⟨?_, ?_, ?_⟩, rfl, rfl, rfl⟩,
    ⟨⟨?_, ?_, ?_⟩, rfl, rfl, rfl⟩, ⟨⟨?_, ?_, ?_⟩, rfl, rfl, rfl⟩,
    ⟨⟨?_, ?_, ?_⟩, rfl, rfl⟩⟩ <;>
  simp [Context.set_agent, Context.set_conversation, Context.set_organization,
    Context.clear_agent, Context.clear_conversation, Context.clear_organization,
    Context.clear_all, h1, h2, h3]

/-- Witness for C9 at a concrete context satisfying the invariant. -/
theorem C9_context_pairing_witness :
    Context.pairedInvariant
      (Context.set_agent ⟨none, none, none, none, none, none⟩ "a-1" none).1 :=
  (C9_context_pairing ⟨none, none, none, none, none, none⟩
    (by simp [Context.pairedInvariant]) "a-1" none).1.1

/-- C6 counterexample: for the falsy value `[]` the csv formatter returns
the empty string, not the "No data to display" message the claim asserts
for csv output. -/
theorem C6_csv_counterexample :
    (JVal.arr []).truthy = false ∧
    Formatter.formatCsv (.arr []) = some "" ∧
    Formatter.formatCsv (.arr []) ≠ some "No data to display" :=
  by decide

/-- C6 amended: for every falsy top-level value the table formatter renders
the "No data to display" message, the csv formatter returns the empty
string (a bare CRLF header/row pair for the empty object), and the json
and yaml formatters pass the value through to their encoders unchanged. -/
theorem C6_falsy_rendering (yamlDump : JVal → String) (data : JVal)
    (h : data.truthy = false) :
    Formatter.formatTable data = .message "No data to display" ∧
    Formatter.formatCsv data = some (if data = .obj [] then "\r\n\r\n" else "") ∧
    Formatter.formatJson data = Formatter.jsonDumps data ∧
    Formatter.formatYaml yamlDump data = yamlDump data :=
  by
  refine ⟨?_, ?_, rfl, rfl⟩
  · simp [Formatter.formatTable, h]
  · cases data with
    | null => simp [Formatter.formatCsv, JVal.truthy]
    | bool b =>
        simp only [JVal.truthy] at h
        subst h
        simp [Formatter.formatCsv, JVal.truthy]
    | num n =>
        simp only [JVal.truthy, bne_eq_false_iff_eq] at h
        subst h
        simp [Formatter.formatCsv, JVal.truthy]
    | str s =>
        simp only [JVal.truthy, bne_eq_false_iff_eq] at h
        subst h
        simp [Formatter.formatCsv, JVal.truthy]
    | arr l =>
        simp only [JVal.truthy, Bool.not_eq_false', List.isEmpty_eq_true] at h
        subst h
        simp [Formatter.formatCsv, JVal.truthy]
    | obj f =>
        simp only [JVal.truthy, Bool.not_eq_false', List.isEmpty_eq_true] at h
        subst h
        simp [Formatter.formatCsv, JVal.truthy, jlookup, Formatter.collectKeys,
          Formatter.csvRender, Formatter.csvLine]
        rfl

/-- Witness for C6 at the falsy values `{}` and `None`. -/
theorem C6_falsy_rendering_witness :
    Formatter.formatTable (.obj []) = .message "No data to display" ∧
    Formatter.formatCsv (.obj []) = some "\r\n\r\n" ∧
    Formatter.formatTable .null = .message "No data to display" ∧
    Formatter.formatCsv .null = some "" :=
  by
  have h1 := C6_falsy_rendering (fun _ => "") (.obj []) (by decide)
  have h2 := C6_falsy_rendering (fun _ => "") .null (by decide)
  refine ⟨h1.1, ?_, h2.1, ?_⟩
  · have := h1.2.1
    simpa using this
  · have := h2.2.1
    simpa using this

/-- C5: in table mode, an `{"agents": L}` envelope renders the same table
as the bare list `L`; a single-entity `{"agent": obj}` envelope renders the
same table as the one-element list `[obj]`; and row data whose first row is
a dict with more than 10 (distinct) keys matching no recognized entity
shape is truncated to the first row's first 10 keys in insertion order. -/
theorem C5_table_envelopes (L : List JVal) (o : List (String × JVal))
    (f0 : List (String × JVal)) (rest : List JVal)
    (hdet : Formatter.entityType f0 = none) (hlen : 10 < f0.length) :
    Formatter.formatTable (.obj [("agents", .arr L)]) = Formatter.formatTable (.arr L) ∧
    Formatter.formatTable (.obj [("agent", .obj o)]) = Formatter.formatTable (.arr [.obj o]) ∧
    Formatter.formatTable (.arr (.obj f0 :: rest)) =
      .table (Formatter.restrictFields ((f0.map Prod.fst).take 10) (.obj f0 :: rest)) :=
  by
  refine ⟨?_, ?_, ?_⟩
  · cases L with
    | nil =>
        simp [Formatter.formatTable, JVal.truthy, Formatter.unwrapTable,
          Formatter.findListKey, Formatter.listKeys, jlookup]
    | cons x xs =>
        simp [Formatter.formatTable, JVal.truthy, Formatter.unwrapTable,
          Formatter.findListKey, Formatter.listKeys, jlookup]
  · simp [Formatter.formatTable, JVal.truthy, Formatter.unwrapTable,
      Formatter.findListKey, Formatter.listKeys, Formatter.findSingleKey,
      Formatter.singleEntityKeys, jlookup]
  · simp [Formatter.formatTable, JVal.truthy, Formatter.filterEssential, hdet, hlen]

/-- Witness for C5 at concrete agent rows and a 11-field generic row. -/
theorem C5_table_envelopes_witness :
    Formatter.formatTable (.obj [("agents", .arr [.obj [("id", .str "1")]])]) =
      Formatter.formatTable (.arr [.obj [("id", .str "1")]]) ∧
    Formatter.formatTable
        (.arr [.obj [("k01", .num 1), ("k02", .num 2), ("k03", .num 3), ("k04", .num 4),
          ("k05", .num 5), ("k06", .num 6), ("k07", .num 7), ("k08", .num 8),
          ("k09", .num 9), ("k10", .num 10), ("k11", .num 11)]]) =
      .table (Formatter.restrictFields
        (([("k01", JVal.num 1), ("k02", JVal.num 2), ("k03", JVal.num 3), ("k04", JVal.num 4),
          ("k05", JVal.num 5), ("k06", JVal.num 6), ("k07", JVal.num 7), ("k08", JVal.num 8),
          ("k09", JVal.num 9), ("k10", JVal.num 10),
          ("k11", JVal.num 11)].map Prod.fst).take 10)
        [.obj [("k01", .num 1), ("k02", .num 2), ("k03", .num 3), ("k04", .num 4),
          ("k05", .num 5), ("k06", .num 6), ("k07", .num 7), ("k08", .num 8),
          ("k09", .num 9), ("k10", .num 10), ("k11", .num 11)]]) :=
  by
  have h := C5_table_envelopes [.obj [("id", .str "1")]] [("id", .str "1")]
    [("k01", .num 1), ("k02", .num 2), ("k03", .num 3), ("k04", .num 4),
     ("k05", .num 5), ("k06", .num 6), ("k07", .num 7), ("k08", .num 8),
     ("k09", .num 9), ("k10", .num 10), ("k11", .num 11)] []
    (by decide) (by decide)
  exact ⟨h.1, h.2.2⟩

/-- Any `apiCall` in the trace of `resolveCore` is the resolver's own API
step (cache lookups, notices and cache writes are the only other
entries). -/
theorem resolveCore_apiCall_eq (cache : NameCache) (cat n : String)
    (uc fz : Bool) (M P : String) (hit : Option (String × String)) (nf : String)
    (m p : String)
    (hmem : Effect.apiCall m p ∈
      (resolveCore cache cat n uc fz (.apiCall M P) hit nf).effects) :
    m = M ∧ p = P :=
  by
  unfold resolveCore resolveFuzzyTail at hmem
  by_cases ht : truthyStr (if uc then slookup (cacheCat cache cat) (pyLower n) else none) = true
  · rw [if_pos ht] at hmem
    cases uc <;> simp at hmem
  · rw [if_neg (by simpa using ht)] at hmem
    cases hit with
    | some pr =>
        obtain ⟨nm, idv⟩ := pr
        simp only [List.mem_append, List.mem_singleton] at hmem
        rcases hmem with (hmem | hmem) | hmem
        · cases uc <;> simp at hmem
        · cases hmem; exact ⟨rfl, rfl⟩
        · simp at hmem
    | none =>
        cases fz with
        | false =>
            simp only [Bool.false_eq_true, if_false, List.mem_append,
              List.mem_singleton] at hmem
            rcases hmem with hmem | hmem
            · cases uc <;> simp at hmem
            · cases hmem; exact ⟨rfl, rfl⟩
        | true =>
            simp only [if_true] at hmem
            cases hfm : fuzzyMatch cache cat n with
            | some pr =>
                obtain ⟨mn, fid⟩ := pr
                rw [hfm] at hmem
                dsimp only at hmem
                have hgoal : Effect.apiCall m p ∈
                    ((if uc = true then [Effect.cacheLookup cat (pyLower n)] else []) ++
                      [Effect.apiCall M P] ++
                      [Effect.notice ("Did you mean '" ++ mn ++
                        "'? Using that instead of '" ++ n ++ "'.")]) := by
                  by_cases hf : fid ≠ ""
                  · rw [if_pos hf] at hmem; exact hmem
                  · rw [if_neg hf] at hmem; exact hmem
                simp only [List.mem_append, List.mem_singleton] at hgoal
                rcases hgoal with (hg | hg) | hg
                · cases uc <;> simp at hg
                · cases hg; exact ⟨rfl, rfl⟩
                · simp at hg
            | none =>
                rw [hfm] at hmem
                simp only [List.mem_append, List.mem_singleton] at hmem
                rcases hmem with hmem | hmem
                · cases uc <;> simp at hmem
                · cases hmem; exact ⟨rfl, rfl⟩

/-- C3 counterexample: `company delete` for a known ID issues the DELETE
unconditionally — there is no confirmation prompt, and no "Cancelled."
path, so an operator who would have answered "no" cannot prevent the
request. -/
theorem C3_company_delete_counterexample :
    delete_company "c-1" (.obj [("status", .str "success")]) =
      ⟨[.request "DELETE" "/api/v1/company/c-1",
        .printed (.obj [("status", .str "success")])], 0⟩ ∧
    CmdEffect.request "DELETE" "/api/v1/company/c-1" ∈
      (delete_company "c-1" (.obj [("status", .str "success")])).effects ∧
    CmdEffect.confirmPrompt "Are you sure you want to delete company 'c-1'?" ∉
      (delete_company "c-1" (.obj [("status", .str "success")])).effects ∧
    CmdEffect.echo "Cancelled." ∉
      (delete_company "c-1" (.obj [("status", .str "success")])).effects :=
  by decide

/-- C3 amended: `company delete` has no confirmation at all and sends the
DELETE unconditionally; the claimed behaviour belongs to `agent delete`,
where without `--yes` an operator answering "no" gets a "Cancelled."
message, no DELETE request (only the resolver's GET lookup), and exit
code 0. -/
theorem C3_delete_confirmation (companyId : String) (resp : JVal)
    (cache : NameCache) (api : Option JVal) (nameOrId agentId : String)
    (resp2 : JVal)
    (hres : (resolveAgent cache api nameOrId true true).result = .ok agentId) :
    (delete_company companyId resp).effects =
        [.request "DELETE" ("/api/v1/company/" ++ companyId), .printed resp] ∧
    (delete_company companyId resp).exit = 0 ∧
    (delete_agent cache api nameOrId false false resp2).exit = 0 ∧
    CmdEffect.echo "Cancelled." ∈ (delete_agent cache api nameOrId false false resp2).effects ∧
    (∀ m p, CmdEffect.request m p ∈
        (delete_agent cache api nameOrId false false resp2).effects → m = "GET") :=
  by
  refine ⟨rfl, rfl, ?_, ?_, ?_⟩
  · simp only [delete_agent, hres]
    cases hr : (resolveAgent cache api nameOrId true true).result with
    | ok a => simp
    | error e => rw [hr] at hres; cases hres
  · simp only [delete_agent]
    cases hr : (resolveAgent cache api nameOrId true true).result with
    | ok a => simp
    | error e => rw [hr] at hres; cases hres
  · intro m p hmem
    simp only [delete_agent] at hmem
    cases hr : (resolveAgent cache api nameOrId true true).result with
    | error e => rw [hr] at hres; cases hres
    | ok a =>
        rw [hr] at hmem
        dsimp only at hmem
        simp only [Bool.false_eq_true, if_false, List.mem_append,
          List.mem_cons, List.mem_singleton, List.mem_filterMap] at hmem
        rcases hmem with ⟨e, he, hmap⟩ | hmem
        · cases e with
          | apiCall m2 p2 =>
              rw [Option.some.injEq, CmdEffect.request.injEq] at hmap
              obtain ⟨hm, hp⟩ := hmap
              subst hm
              subst hp
              by_cases hu : isUuid nameOrId = true
              · simp [resolveAgent, hu] at he
              · have hu' : isUuid nameOrId = false := by
                  cases hval : isUuid nameOrId
                  · rfl
                  · exact absurd hval hu
                simp only [resolveAgent, hu', Bool.false_eq_true, if_false] at he
                exact (resolveCore_apiCall_eq cache "agents" nameOrId true true
                  "GET" ("/api/v1/agent/by-name/" ++ nameOrId)
                  (agentApiStep api nameOrId) _ m2 p2 he).1
          | cacheLookup c k => simp at hmap
          | notice s => simp at hmap
          | echo s => simp at hmap
          | confirmPrompt s => simp at hmap
          | cacheWrite c k i => simp at hmap
        · simp at hmem

/-- Witness for C3 at a concrete cached agent and declined confirmation. -/
theorem C3_delete_confirmation_witness :
    CmdEffect.echo "Cancelled." ∈
      (delete_agent [("agents", [("support bot", "id-1")])] none "support bot"
        false false (.obj [])).effects ∧
    (delete_agent [("agents", [("support bot", "id-1")])] none "support bot"
      false false (.obj [])).exit = 0 :=
  by
  have h := C3_delete_confirmation "c-1" (.obj [])
    [("agents", [("support bot", "id-1")])] none "support bot" "id-1" (.obj [])
    (by decide)
  exact ⟨h.2.2.2.1, h.2.2.1⟩

/-- C4 counterexample: on an HTTP 401 logout response the client raises
before `clear_jwt_tokens` runs, so the stored `auth.jwt` block is left
intact — contradicting the claim that it is empty for every server
response. -/
theorem C4_logout_counterexample :
    logout [("auth", .obj [("jwt", .obj [("access_token", .str "T"),
        ("refresh_token", .str "R")]), ("api_key", .obj [])])]
        401 (some (.obj [("error", .str "Token revoked")])) "" =
      some (.error "[HTTP 401] Token revoked",
        [.request "POST" "/api/v1/auth/logout"]) ∧
    jwtBlock [("auth", .obj [("jwt", .obj [("access_token", .str "T"),
        ("refresh_token", .str "R")]), ("api_key", .obj [])])] ≠ .obj [] :=
  by constructor <;> decide

/-- C4 amended: `auth logout` clears the cached JWT tokens only when the
logout POST succeeds (status < 400); on an error status the propagated
`KnowrithmAPIError` aborts the command before `clear_jwt_tokens`, leaving
the configuration untouched. -/
theorem C4_logout_clears_only_on_success (cfg : PyDict)
    (authFields : List (String × JVal)) (hauth : authValue cfg = .obj authFields)
    (status : Nat) (parsed : Option JVal) (raw : String) :
    (400 ≤ status →
      logout cfg status parsed raw =
        some (.error (apiErrorMessage status parsed raw),
          [.request "POST" "/api/v1/auth/logout"])) ∧
    (status < 400 →
      ∃ cfg', logout cfg status parsed raw =
          some (.ok cfg',
            [.request "POST" "/api/v1/auth/logout",
             .echo "Logged out and cleared cached tokens.",
             .printed (maybeJson parsed)]) ∧
        jwtBlock cfg' = .obj []) :=
  by
  constructor
  · intro hs
    simp [logout, hs]
  · intro hs
    have hs' : ¬ (400 ≤ status) := by omega
    refine ⟨dSet (setdefaultAuth cfg) "auth" (.obj (dSet authFields "jwt" (.obj []))), ?_, ?_⟩
    · simp [logout, hs', clear_jwt_tokens, hauth]
    · simp only [jwtBlock, pyGetD, jlookup_dSet, if_pos rfl, Option.getD_some]
      simp [jlookup_dSet]

/-- Witness for C4 at a failing (401) and a succeeding (200) logout. -/
theorem C4_logout_clears_only_on_success_witness :
    logout [("auth", .obj [("jwt", .obj [("access_token", .str "T")]), ("api_key", .obj [])])]
        401 (some (.obj [("error", .str "Token revoked")])) "" =
      some (.error (apiErrorMessage 401 (some (.obj [("error", .str "Token revoked")])) ""),
        [.request "POST" "/api/v1/auth/logout"]) ∧
    ∃ cfg', logout [("auth", .obj [("jwt", .obj [("access_token", .str "T")]),
          ("api_key", .obj [])])] 200 (some (.obj [])) "" =
        some (.ok cfg',
          [.request "POST" "/api/v1/auth/logout",
           .echo "Logged out and cleared cached tokens.",
           .printed (maybeJson (some (.obj [])))]) ∧
      jwtBlock cfg' = .obj [] :=
  by
  constructor
  · exact (C4_logout_clears_only_on_success
      [("auth", .obj [("jwt", .obj [("access_token", .str "T")]), ("api_key", .obj [])])]
      [("jwt", .obj [("access_token", .str "T")]), ("api_key", .obj [])] (by decide)
      401 (some (.obj [("error", .str "Token revoked")])) "").1 (by decide)
  · exact (C4_logout_clears_only_on_success
      [("auth", .obj [("jwt", .obj [("access_token", .str "T")]), ("api_key", .obj [])])]
      [("jwt", .obj [("access_token", .str "T")]), ("api_key", .obj [])] (by decide)
      200 (some (.obj [])) "").2 (by decide)

/-- Advancing the polling loop past `k` leading non-terminal polls that
occur strictly before the deadline. -/
theorem waitLoop_skip (taskId : String) (pollInterval timeout : ℚ) :
    ∀ (k : Nat) (rs : List JVal) (e : ℚ),
      k ≤ rs.length →
      (∀ j, j < k → isTerminal (rs.getD j .null) = false) →
      (∀ j : Nat, j < k → e + j * pollInterval < timeout) →
      waitLoop taskId pollInterval timeout rs e =
        ((waitLoop taskId pollInterval timeout (rs.drop k) (e + k * pollInterval)).1,
         (waitLoop taskId pollInterval timeout (rs.drop k) (e + k * pollInterval)).2 + k) :=
  by
  intro k
  induction k with
  | zero =>
      intro rs e _ _ _
      simp
  | succ k ih =>
      intro rs e hlen hterm htime
      cases rs with
      | nil => simp at hlen
      | cons r rest =>
          have hr : isTerminal r = false := by
            have := hterm 0 (Nat.succ_pos k)
            simpa using this
          have hrs : isSuccessState (stateOf r) = false ∧
              isFailureState (stateOf r) = false := by
            simp only [isTerminal, Bool.or_eq_false_iff] at hr
            exact hr
          have he : e < timeout := by
            have := htime 0 (Nat.succ_pos k)
            simpa using this
          have hnotimeout : ¬ (timeout ≠ 0 ∧ timeout ≤ e) := by
            rintro ⟨-, hle⟩
            exact absurd (lt_of_lt_of_le he hle) (lt_irrefl _)
          have hstep : waitLoop taskId pollInterval timeout (r :: rest) e =
              ((waitLoop taskId pollInterval timeout rest (e + pollInterval)).1,
               (waitLoop taskId pollInterval timeout rest (e + pollInterval)).2 + 1) := by
            simp [waitLoop, hrs.1, hrs.2, hnotimeout]
          rw [hstep]
          have hrec := ih rest (e + pollInterval)
            (by simpa using Nat.succ_le_succ_iff.mp hlen)
            (fun j hj => by
              have := hterm (j + 1) (Nat.succ_lt_succ hj)
              simpa using this)
            (fun j hj => by
              have := htime (j + 1) (Nat.succ_lt_succ hj)
              have harith : e + pollInterval + j * pollInterval =
                  e + (j + 1 : Nat) * pollInterval := by
                push_cast
                ring
              rw [harith]
              exact this)
          rw [hrec]
          have harith2 : e + pollInterval + k * pollInterval =
              e + (k + 1 : Nat) * pollInterval := by
            push_cast
            ring
          rw [harith2]
          simp [List.drop, Nat.add_assoc]

/-- C1 counterexample: a poll whose response carries `state = "SUCCESS"`
and a present but falsy `result` (`{}`) makes `wait_for_task` return the
whole response — not the `result` field, although it is present — because
the source uses `response.get("result") or response`. -/
theorem C1_wait_for_task_counterexample :
    waitForTask "t1" [.obj [("state", .str "SUCCESS"), ("result", .obj [])]] 2 300 =
      (.success (.obj [("state", .str "SUCCESS"), ("result", .obj [])]), 1) ∧
    jlookup [("state", .str "SUCCESS"), ("result", .obj [])] "result" = some (.obj []) ∧
    JVal.obj [] ≠ .obj [("state", .str "SUCCESS"), ("result", .obj [])] :=
  by decide

/-- C1 amended: with a positive timeout, after `k` leading non-terminal
polls none of which has reached the deadline, the `k`-th poll decides the
run — a success state returns the `result` field when present and truthy
and otherwise the whole response; a failure state raises with the first
truthy of `error`/`message`, else the generic "Task {id} failed." text;
and a non-terminal poll at accumulated elapsed time `k·poll_interval ≥
timeout` raises the timeout error. -/
theorem C1_wait_for_task_terminal (taskId : String) (rs : List JVal)
    (pollInterval timeout : ℚ) (k : Nat) (hk : k < rs.length) (ht : 0 < timeout)
    (hpre : ∀ j, j < k → isTerminal (rs.getD j .null) = false)
    (hnotime : ∀ j : Nat, j < k → (j : ℚ) * pollInterval < timeout) :
    (isSuccessState (stateOf (rs.getD k .null)) = true →
      waitForTask taskId rs pollInterval timeout =
        (.success (pyOr (pyGet (rs.getD k .null) "result") (rs.getD k .null)), k + 1)) ∧
    (isSuccessState (stateOf (rs.getD k .null)) = false →
      isFailureState (stateOf (rs.getD k .null)) = true →
      waitForTask taskId rs pollInterval timeout =
        (.failed (pyOr (pyGet (rs.getD k .null) "error")
          (pyOr (pyGet (rs.getD k .null) "message")
            (.str ("Task " ++ taskId ++ " failed.")))), k + 1)) ∧
    (isTerminal (rs.getD k .null) = false →
      timeout ≤ (k : ℚ) * pollInterval →
      waitForTask taskId rs pollInterval timeout = (.timedOut, k + 1)) :=
  by
  have hskip := waitLoop_skip taskId pollInterval timeout k rs 0
    (Nat.le_of_lt hk) hpre
    (fun j hj => by simpa using hnotime j hj)
  set r := rs.getD k JVal.null with hrdef
  have hdrop : rs.drop k = r :: rs.drop (k + 1) := by
    rw [hrdef, List.getD_eq_getElem rs .null hk]
    exact List.drop_eq_getElem_cons hk
  have hzero : (0 : ℚ) + (k : ℚ) * pollInterval = (k : ℚ) * pollInterval := by ring
  refine ⟨?_, ?_, ?_⟩
  · intro hsucc
    rw [waitForTask, hskip, hdrop, hzero]
    simp [waitLoop, hsucc, Nat.add_comm]
  · intro hnsucc hfail
    rw [waitForTask, hskip, hdrop, hzero]
    simp [waitLoop, hnsucc, hfail, Nat.add_comm]
  · intro hterm htime
    have hns : isSuccessState (stateOf r) = false ∧
        isFailureState (stateOf r) = false := by
      simp only [isTerminal, Bool.or_eq_false_iff] at hterm
      exact hterm
    rw [waitForTask, hskip, hdrop, hzero]
    have hcond : timeout ≠ 0 ∧ timeout ≤ (k : ℚ) * pollInterval :=
      ⟨ne_of_gt ht, htime⟩
    simp [waitLoop, hns.1, hns.2, hcond, ne_of_gt ht, htime, Nat.add_comm]

/-- Witness for C1 at the spec's queued → running → SUCCESS sequence. -/
theorem C1_wait_for_task_terminal_witness :
    waitForTask "t9" [.obj [("state", .str "queued")], .obj [("state", .str "running")],
        .obj [("state", .str "SUCCESS"), ("result", .str "done")]] 2 300 =
      (.success (.str "done"), 3) :=
  by
  have h := C1_wait_for_task_terminal "t9"
    [.obj [("state", .str "queued")], .obj [("state", .str "running")],
     .obj [("state", .str "SUCCESS"), ("result", .str "done")]] 2 300 2
    (by decide) (by norm_num)
    (by
      intro j hj
      interval_cases j <;> decide)
    (by
      intro j hj
      interval_cases j <;> norm_num)
  have h1 := h.1 (by decide)
  simpa using h1

/-- Poll-count bound for the task loop: from elapsed time `e`, at most
`⌈(timeout - e)/poll_interval⌉ + 1` polls happen. -/
theorem waitLoop_polls_le (taskId : String) (pollInterval timeout : ℚ)
    (hpi : 0 < pollInterval) (ht : 0 < timeout) :
    ∀ (rs : List JVal) (e : ℚ),
      (waitLoop taskId pollInterval timeout rs e).2 ≤
        (⌈(timeout - e) / pollInterval⌉).toNat + 1 :=
  by
  intro rs
  induction rs with
  | nil => intro e; simp [waitLoop]
  | cons r rest ih =>
      intro e
      cases hsb : isSuccessState (stateOf r) with
      | true =>
          simp only [waitLoop, hsb, if_true]
          exact Nat.succ_le_succ (Nat.zero_le _)
      | false =>
          cases hfb : isFailureState (stateOf r) with
          | true =>
              simp only [waitLoop, hsb, Bool.false_eq_true, if_false, hfb, if_true]
              exact Nat.succ_le_succ (Nat.zero_le _)
          | false =>
              by_cases hto : timeout ≤ e
              · have hcond : timeout ≠ 0 ∧ timeout ≤ e := ⟨ne_of_gt ht, hto⟩
                simp only [waitLoop, hsb, hfb, Bool.false_eq_true, if_false,
                  if_pos hcond]
                exact Nat.succ_le_succ (Nat.zero_le _)
              · have hcond : ¬ (timeout ≠ 0 ∧ timeout ≤ e) := fun h => hto h.2
                simp only [waitLoop, hsb, hfb, Bool.false_eq_true, if_false,
                  if_neg hcond]
                have he : e < timeout := lt_of_not_le hto
                have hrec := ih (e + pollInterval)
                have hensub : (timeout - (e + pollInterval)) / pollInterval =
                    (timeout - e) / pollInterval - 1 := by
                  rw [show timeout - (e + pollInterval) = timeout - e - pollInterval
                      from by ring,
                    sub_div, div_self (ne_of_gt hpi)]
                have hceil : ⌈(timeout - (e + pollInterval)) / pollInterval⌉ =
                    ⌈(timeout - e) / pollInterval⌉ - 1 := by
                  rw [hensub]
                  exact_mod_cast Int.ceil_sub_int ((timeout - e) / pollInterval) 1
                have hpos : 0 < ⌈(timeout - e) / pollInterval⌉ := by
                  rw [Int.ceil_pos]
                  exact div_pos (by linarith) hpi
                rw [hceil] at hrec
                omega

/-- With `timeout = 0` the timeout test is disabled: the loop never times
out. -/
theorem waitLoop_zero_no_timeout (taskId : String) (pollInterval : ℚ) :
    ∀ (rs : List JVal) (e : ℚ),
      (waitLoop taskId pollInterval 0 rs e).1 ≠ .timedOut :=
  by
  intro rs
  induction rs with
  | nil => intro e; simp [waitLoop]
  | cons r rest ih =>
      intro e
      by_cases hs : isSuccessState (stateOf r) = true
      · simp [waitLoop, hs]
      · by_cases hf : isFailureState (stateOf r) = true
        · simp [waitLoop, hs, hf]
        · simp only [waitLoop, hs, if_false, hf, ne_eq, not_true_eq_false,
            false_and, if_false]
          exact ih (e + pollInterval)

/-- With `timeout = 0` and no terminal response the loop consumes the whole
observed sequence (it would keep polling indefinitely). -/
theorem waitLoop_zero_exhausts (taskId : String) (pollInterval : ℚ) :
    ∀ (rs : List JVal) (e : ℚ), (∀ r ∈ rs, isTerminal r = false) →
      waitLoop taskId pollInterval 0 rs e = (.exhausted, rs.length) :=
  by
  intro rs
  induction rs with
  | nil => intro e _; simp [waitLoop]
  | cons r rest ih =>
      intro e hterm
      have hr := hterm r (List.mem_cons_self r rest)
      have hrs : isSuccessState (stateOf r) = false ∧
          isFailureState (stateOf r) = false := by
        simp only [isTerminal, Bool.or_eq_false_iff] at hr
        exact hr
      have hrest : ∀ x ∈ rest, isTerminal x = false :=
        fun x hx => hterm x (List.mem_cons_of_mem r hx)
      simp [waitLoop, hrs.1, hrs.2, ih (e + pollInterval) hrest]

/-- C10: for positive `poll_interval` and `timeout` the loop performs at
most `⌈timeout / poll_interval⌉ + 1` polls; the elapsed counter advances by
exactly `poll_interval` per non-terminal poll (checked against the deadline
first); and for `timeout = 0` the timeout test is disabled entirely — the
loop never times out and keeps polling until a terminal state appears. -/
theorem C10_poll_budget (taskId : String) (rs : List JVal)
    (pollInterval timeout : ℚ) :
    (0 < pollInterval → 0 < timeout →
      (waitForTask taskId rs pollInterval timeout).2 ≤
        (⌈timeout / pollInterval⌉).toNat + 1) ∧
    ((waitForTask taskId rs pollInterval 0).1 ≠ .timedOut) ∧
    ((∀ r ∈ rs, isTerminal r = false) →
      waitForTask taskId rs pollInterval 0 = (.exhausted, rs.length)) ∧
    (∀ (r : JVal) (rest : List JVal) (e : ℚ), isTerminal r = false →
      (timeout = 0 ∨ e < timeout) →
      waitLoop taskId pollInterval timeout (r :: rest) e =
        ((waitLoop taskId pollInterval timeout rest (e + pollInterval)).1,
         (waitLoop taskId pollInterval timeout rest (e + pollInterval)).2 + 1)) :=
  by
  refine ⟨?_, ?_, ?_, ?_⟩
  · intro hpi ht
    have := waitLoop_polls_le taskId pollInterval timeout hpi ht rs 0
    simpa [waitForTask] using this
  · exact waitLoop_zero_no_timeout taskId pollInterval rs 0
  · intro hterm
    exact waitLoop_zero_exhausts taskId pollInterval rs 0 hterm
  · intro r rest e hterm hok
    have hrs : isSuccessState (stateOf r) = false ∧
        isFailureState (stateOf r) = false := by
      simp only [isTerminal, Bool.or_eq_false_iff] at hterm
      exact hterm
    have hcond : ¬ (timeout ≠ 0 ∧ timeout ≤ e) := by
      rintro ⟨hne, hle⟩
      rcases hok with h0 | hlt
      · exact hne h0
      · exact absurd (lt_of_lt_of_le hlt hle) (lt_irrefl _)
    simp [waitLoop, hrs.1, hrs.2, hcond]

/-! ## Correctness lemmas for the `difflib` embedding (used by the fuzzy
matching claim): `quick_ratio` counts the multiset intersection, `ratio`
counts at most that, so the quick-ratio prefilters of `get_close_matches`
are exact. -/

namespace Difflib

/-- The size of the character multiset intersection of two strings. -/
def interCount (a b : List Char) : Nat :=
  Multiset.card ((a : Multiset Char) ∩ (b : Multiset Char))

theorem inter_add_singleton (S T : Multiset Char) (e : Char) :
    (S + {e}) ∩ T = S ∩ T + (if S.count e < T.count e then {e} else 0) :=
  by
  ext x
  by_cases hx : x = e
  · subst hx
    by_cases hlt : S.count x < T.count x <;>
      simp [Multiset.count_inter, Multiset.count_add, Multiset.count_singleton, hlt] <;>
      omega
  · by_cases hlt : S.count e < T.count e <;>
      simp [Multiset.count_inter, Multiset.count_add, Multiset.count_singleton, hlt, hx]

theorem card_inter_add_singleton (S T : Multiset Char) (e : Char) :
    Multiset.card ((S + {e}) ∩ T) =
      Multiset.card (S ∩ T) + (if S.count e < T.count e then 1 else 0) :=
  by
  rw [inter_add_singleton]
  by_cases hlt : S.count e < T.count e <;> simp [hlt]

theorem quickLoop_interCount (b : List Char) :
    ∀ (rest processed : List Char) (avail : Char → Option Int) (m : Nat),
      avail = (fun c => if c ∈ processed then
        some ((b.count c : Int) - processed.count c) else none) →
      m = interCount processed b →
      quickLoop (fun c => b.count c) rest avail m = interCount (processed ++ rest) b :=
  by
  intro rest
  induction rest with
  | nil =>
      intro processed avail m _ hm
      simpa [quickLoop] using hm
  | cons e rest' ih =>
      intro processed avail m havail hm
      subst havail
      subst hm
      rw [quickLoop]
      have hnumb : (match (if e ∈ processed then
              some ((b.count e : Int) - processed.count e) else none) with
            | some v => v
            | none => ((b.count e : Nat) : Int)) =
          (b.count e : Int) - processed.count e := by
        by_cases he : e ∈ processed
        · simp [he]
        · simp [he, List.count_eq_zero_of_not_mem he]
      rw [hnumb]
      have happ : processed ++ e :: rest' = (processed ++ [e]) ++ rest' := by
        rw [List.append_assoc]
        rfl
      rw [happ]
      apply ih (processed ++ [e])
      · funext c
        by_cases hc : c = e
        · subst hc
          have h1 : List.count c (processed ++ [c]) = List.count c processed + 1 := by
            simp [List.count_append]
          simp only [if_pos rfl, List.mem_append, List.mem_singleton, or_true,
            if_true, h1, Option.some.injEq]
          push_cast
          ring
        · have h0 : List.count c [e] = 0 := by
            simp [List.count_singleton, hc]
          have h2 : List.count c (processed ++ [e]) = List.count c processed := by
            simp [List.count_append, h0]
          have hmm : (c ∈ processed ++ [e]) ↔ (c ∈ processed) := by
            constructor
            · intro hx
              rcases List.mem_append.mp hx with h | h
              · exact h
              · exact absurd (List.mem_singleton.mp h) hc
            · intro hx
              exact List.mem_append.mpr (Or.inl hx)
          by_cases hcp : c ∈ processed
          · rw [if_neg hc, if_pos hcp, if_pos (hmm.mpr hcp), h2]
          · rw [if_neg hc, if_neg hcp, if_neg (fun hx => hcp (hmm.mp hx))]
      · have hcoe : ((processed ++ [e] : List Char) : Multiset Char) =
            (processed : Multiset Char) + {e} := rfl
        have hcard : interCount (processed ++ [e]) b =
            Multiset.card ((processed : Multiset Char) ∩ (b : Multiset Char)) +
              (if List.count e processed < List.count e b then 1 else 0) := by
          simp only [interCount, hcoe, card_inter_add_singleton, Multiset.coe_count]
        rw [hcard]
        by_cases hlt : List.count e processed < List.count e b
        · rw [if_pos (by
            have : (0 : Int) < (List.count e b : Int) - List.count e processed := by
              omega
            exact this), if_pos hlt]
          rfl
        · rw [if_neg (by
            intro hcon
            omega), if_neg hlt]
          rfl

theorem quickMatches_eq_interCount (a b : List Char) :
    quickMatches a b = interCount a b :=
  by
  have h := quickLoop_interCount b a []
  have hz : interCount [] b = 0 := by simp [interCount]
  have hav : (fun c => if c ∈ ([] : List Char) then
      some ((b.count c : Int) - ([] : List Char).count c) else none) =
      (fun _ : Char => (none : Option Int)) := by
    funext c; simp
  rw [hz, hav] at h
  simpa [quickMatches] using h

end Difflib

namespace Difflib

/-- Soundness of a `j2len` row for outer index `i`: every recorded run
length is a genuine common suffix of `a[.. i]` and `b[.. j]` inside the
`blo ≤ j < bhi` window, starting no earlier than `alo`. -/
def RowOk (a b : List Char) (alo blo bhi : Nat) (f : Nat → Nat) (i : Nat) : Prop :=
  ∀ j, f j ≠ 0 → blo ≤ j ∧ j < bhi ∧ blo + f j ≤ j + 1 ∧ alo + f j ≤ i + 1 ∧
    ∀ t, t < f j → a.getD (i - t) ' ' = b.getD (j - t) ' '

/-- Soundness of the tracked best block, with `N` the exclusive upper bound
for its end in `a`. -/
def BestOk (a b : List Char) (alo blo bhi : Nat) (best : Nat × Nat × Nat) (N : Nat) : Prop :=
  (best.2.2 = 0 → best = (alo, blo, 0)) ∧
  (best.2.2 ≠ 0 → alo ≤ best.1 ∧ blo ≤ best.2.1 ∧ best.1 + best.2.2 ≤ N ∧
    best.2.1 + best.2.2 ≤ bhi ∧
    ∀ t, t < best.2.2 → a.getD (best.1 + t) ' ' = b.getD (best.2.1 + t) ' ')

theorem BestOk_mono (a b : List Char) (alo blo bhi : Nat) (best : Nat × Nat × Nat)
    (N M : Nat) (hNM : N ≤ M) (h : BestOk a b alo blo bhi best N) :
    BestOk a b alo blo bhi best M :=
  by
  refine ⟨h.1, fun hne => ?_⟩
  obtain ⟨h1, h2, h3, h4, h5⟩ := h.2 hne
  exact ⟨h1, h2, le_trans h3 hNM, h4, h5⟩

theorem dpInner_ok (a b : List Char) (alo blo bhi : Nat) (i : Nat) (hi : alo ≤ i)
    (old : Nat → Nat)
    (hold : (∀ j, old j = 0) ∨ (1 ≤ i ∧ RowOk a b alo blo bhi old (i - 1))) :
    ∀ (js : List Nat), (∀ j ∈ js, blo ≤ j ∧ j < bhi ∧ b.getD j ' ' = a.getD i ' ') →
    ∀ (newRow : Nat → Nat) (best : Nat × Nat × Nat),
      RowOk a b alo blo bhi newRow i →
      BestOk a b alo blo bhi best (i + 1) →
      RowOk a b alo blo bhi (dpInner old i js newRow best).1 i ∧
      BestOk a b alo blo bhi (dpInner old i js newRow best).2 (i + 1) :=
  by
  intro js
  induction js with
  | nil =>
      intro _ newRow best hrow hbest
      exact ⟨hrow, hbest⟩
  | cons j js' ih =>
      intro hjs newRow best hrow hbest
      obtain ⟨hjb, hjhi, hjc⟩ := hjs j (List.mem_cons_self j js')
      have hjs' : ∀ x ∈ js', blo ≤ x ∧ x < bhi ∧ b.getD x ' ' = a.getD i ' ' :=
        fun x hx => hjs x (List.mem_cons_of_mem j hx)
      simp only [dpInner]
      set k := (if j = 0 then 0 else old (j - 1)) + 1 with hkdef
      have hkclaim : blo ≤ j ∧ j < bhi ∧ blo + k ≤ j + 1 ∧ alo + k ≤ i + 1 ∧
          ∀ t, t < k → a.getD (i - t) ' ' = b.getD (j - t) ' ' := by
        by_cases hcase : (if j = 0 then 0 else old (j - 1)) = 0
        · rw [hkdef, hcase]
          refine ⟨hjb, hjhi, by omega, by omega, ?_⟩
          intro t htlt
          have ht0 : t = 0 := by omega
          subst ht0
          simpa using hjc.symm
        · have hj0 : j ≠ 0 := by
            intro hj
            rw [hj] at hcase
            simp at hcase
          have hm : old (j - 1) ≠ 0 := by
            rw [if_neg hj0] at hcase
            exact hcase
          rcases hold with hzero | ⟨h1i, hrowold⟩
          · exact absurd (hzero (j - 1)) hm
          · obtain ⟨hb1, hb2, hb3, hb4, hb5⟩ := hrowold (j - 1) hm
            have hk : k = old (j - 1) + 1 := by rw [hkdef, if_neg hj0]
            refine ⟨hjb, hjhi, by omega, by omega, ?_⟩
            intro t htlt
            rcases Nat.eq_zero_or_pos t with ht0 | htpos
            · subst ht0
              simpa using hjc.symm
            · obtain ⟨s, hs⟩ : ∃ s, t = s + 1 := ⟨t - 1, by omega⟩
              subst hs
              have hs_lt : s < old (j - 1) := by omega
              have hidx1 : i - (s + 1) = (i - 1) - s := by omega
              have hidx2 : j - (s + 1) = (j - 1) - s := by omega
              rw [hidx1, hidx2]
              exact hb5 s hs_lt
      have hrow' : RowOk a b alo blo bhi (fun j' => if j' = j then k else newRow j') i := by
        intro j' hj'
        dsimp only at hj' ⊢
        by_cases hjj : j' = j
        · subst hjj
          rw [if_pos rfl] at hj' ⊢
          exact hkclaim
        · rw [if_neg hjj] at hj' ⊢
          exact hrow j' hj'
      have hbest' : BestOk a b alo blo bhi
          (if best.2.2 < k then (i + 1 - k, j + 1 - k, k) else best) (i + 1) := by
        by_cases hlt : best.2.2 < k
        · rw [if_pos hlt]
          obtain ⟨hc1, hc2, hc3, hc4, hc5⟩ := hkclaim
          constructor
          · intro h0
            dsimp only at h0
            omega
          · intro hne
            dsimp only at hne ⊢
            refine ⟨by omega, by omega, by omega, by omega, ?_⟩
            intro t htlt
            have hidx1 : i + 1 - k + t = i - (k - 1 - t) := by omega
            have hidx2 : j + 1 - k + t = j - (k - 1 - t) := by omega
            rw [hidx1, hidx2]
            exact hc5 (k - 1 - t) (by omega)
        · rw [if_neg hlt]
          exact hbest
      exact ih hjs' _ _ hrow' hbest'

end Difflib

namespace Difflib

theorem mem_b2j (b : List Char) (c : Char) (j : Nat) (hj : j ∈ b2j b c) :
    b.getD j ' ' = c :=
  by
  unfold b2j at hj
  by_cases hcond : 200 ≤ b.length ∧ b.length / 100 + 1 < b.count c
  · rw [if_pos hcond] at hj
    simp at hj
  · rw [if_neg hcond] at hj
    unfold indicesOf at hj
    exact of_decide_eq_true (List.mem_filter.mp hj).2

theorem dpLoop_ok (a b : List Char) (alo blo bhi : Nat) :
    ∀ (n i0 : Nat) (old : Nat → Nat) (best : Nat × Nat × Nat),
      alo ≤ i0 →
      ((∀ j, old j = 0) ∨ (1 ≤ i0 ∧ RowOk a b alo blo bhi old (i0 - 1))) →
      BestOk a b alo blo bhi best i0 →
      BestOk a b alo blo bhi (dpLoop a b blo bhi (List.range' i0 n) old best) (i0 + n) :=
  by
  intro n
  induction n with
  | zero =>
      intro i0 old best _ _ hbest
      simpa [dpLoop] using hbest
  | succ n ih =>
      intro i0 old best hi0 hold hbest
      rw [List.range'_succ]
      rw [dpLoop]
      have hjs : ∀ j ∈ (b2j b (a.getD i0 ' ')).filter (fun j => blo ≤ j ∧ j < bhi),
          blo ≤ j ∧ j < bhi ∧ b.getD j ' ' = a.getD i0 ' ' := by
        intro j hj
        have hmem := List.mem_filter.mp hj
        have hrange := of_decide_eq_true hmem.2
        exact ⟨hrange.1, hrange.2, mem_b2j b (a.getD i0 ' ') j hmem.1⟩
      have hzero : RowOk a b alo blo bhi (fun _ => 0) i0 := by
        intro j hj
        simp at hj
      have h := dpInner_ok a b alo blo bhi i0 hi0 old hold _ hjs (fun _ => 0) best
        hzero (BestOk_mono a b alo blo bhi best i0 (i0 + 1) (Nat.le_succ i0) hbest)
      obtain ⟨hrow', hbest'⟩ := h
      have hrec := ih (i0 + 1)
        (dpInner old i0 ((b2j b (a.getD i0 ' ')).filter (fun j => blo ≤ j ∧ j < bhi))
          (fun _ => 0) best).1
        (dpInner old i0 ((b2j b (a.getD i0 ' ')).filter (fun j => blo ≤ j ∧ j < bhi))
          (fun _ => 0) best).2
        (by omega)
        (Or.inr ⟨by omega, by simpa using hrow'⟩)
        hbest'
      have harith : i0 + 1 + n = i0 + (n + 1) := by omega
      rw [harith] at hrec
      exact hrec

theorem dpPhase_ok (a b : List Char) (alo ahi blo bhi : Nat) (halo : alo ≤ ahi) :
    BestOk a b alo blo bhi (dpPhase a b alo ahi blo bhi) ahi :=
  by
  have h := dpLoop_ok a b alo blo bhi (ahi - alo) alo (fun _ => 0) (alo, blo, 0)
    (le_refl alo)
    (Or.inl (fun _ => rfl))
    (by
      constructor
      · intro _; rfl
      · intro h0; simp at h0)
  have harith : alo + (ahi - alo) = ahi := by omega
  rw [harith] at h
  exact h

theorem extendBack_ok (a b : List Char) (alo blo : Nat) :
    ∀ (bi bj : Nat), alo ≤ bi → blo ≤ bj →
      alo + extendBack a b alo blo bi bj ≤ bi ∧
      blo + extendBack a b alo blo bi bj ≤ bj ∧
      ∀ t, t < extendBack a b alo blo bi bj →
        a.getD (bi - 1 - t) ' ' = b.getD (bj - 1 - t) ' ' :=
  by
  intro bi
  induction bi with
  | zero =>
      intro bj halo hblo
      rw [extendBack]
      exact ⟨by omega, by omega, fun t ht => absurd ht (by omega)⟩
  | succ n ih =>
      intro bj halo hblo
      rw [extendBack]
      by_cases hcond : alo < n + 1 ∧ blo < bj ∧ a.getD n ' ' = b.getD (bj - 1) ' '
      · rw [if_pos hcond]
        obtain ⟨h1, h2, h3⟩ := hcond
        obtain ⟨ih1, ih2, ih3⟩ := ih (bj - 1) (by omega) (by omega)
        refine ⟨by omega, by omega, ?_⟩
        intro t htlt
        rcases Nat.eq_zero_or_pos t with ht0 | htpos
        · subst ht0
          simpa using h3
        · obtain ⟨s, hs⟩ : ∃ s, t = s + 1 := ⟨t - 1, by omega⟩
          subst hs
          have hidx1 : n + 1 - 1 - (s + 1) = n - 1 - s := by omega
          have hidx2 : bj - 1 - (s + 1) = (bj - 1) - 1 - s := by omega
          rw [hidx1, hidx2]
          exact ih3 s (by omega)
      · rw [if_neg hcond]
        exact ⟨by omega, by omega, fun t ht => absurd ht (by omega)⟩

theorem extendFwdAux_ok (a b : List Char) (ahi bhi besti bestj : Nat) :
    ∀ (fuel size : Nat),
      size ≤ extendFwdAux a b ahi bhi besti bestj fuel size ∧
      ∀ t, size ≤ t → t < extendFwdAux a b ahi bhi besti bestj fuel size →
        besti + t < ahi ∧ bestj + t < bhi ∧
          a.getD (besti + t) ' ' = b.getD (bestj + t) ' ' :=
  by
  intro fuel
  induction fuel with
  | zero =>
      intro size
      refine ⟨le_refl _, ?_⟩
      intro t h1 h2
      rw [extendFwdAux] at h2
      omega
  | succ n ih =>
      intro size
      rw [extendFwdAux]
      by_cases hcond : besti + size < ahi ∧ bestj + size < bhi ∧
          a.getD (besti + size) ' ' = b.getD (bestj + size) ' '
      · rw [if_pos hcond]
        obtain ⟨ih1, ih2⟩ := ih (size + 1)
        refine ⟨by omega, ?_⟩
        intro t h1 h2
        rcases Nat.lt_or_ge t (size + 1) with hlt | hge
        · have ht : t = size := by omega
          subst ht
          exact hcond
        · exact ih2 t hge h2
      · rw [if_neg hcond]
        refine ⟨le_refl _, ?_⟩
        intro t h1 h2
        omega

theorem findLongestMatch_ok (a b : List Char) (alo ahi blo bhi : Nat)
    (halo : alo ≤ ahi) :
    (findLongestMatch a b alo ahi blo bhi).2.2 ≠ 0 →
      alo ≤ (findLongestMatch a b alo ahi blo bhi).1 ∧
      blo ≤ (findLongestMatch a b alo ahi blo bhi).2.1 ∧
      (findLongestMatch a b alo ahi blo bhi).1 +
        (findLongestMatch a b alo ahi blo bhi).2.2 ≤ ahi ∧
      (findLongestMatch a b alo ahi blo bhi).2.1 +
        (findLongestMatch a b alo ahi blo bhi).2.2 ≤ bhi ∧
      ∀ t, t < (findLongestMatch a b alo ahi blo bhi).2.2 →
        a.getD ((findLongestMatch a b alo ahi blo bhi).1 + t) ' ' =
          b.getD ((findLongestMatch a b alo ahi blo bhi).2.1 + t) ' ' :=
  by
  have hphase := dpPhase_ok a b alo ahi blo bhi halo
  set p := dpPhase a b alo ahi blo bhi with hpdef
  have hple1 : alo ≤ p.1 := by
    by_cases hz : p.2.2 = 0
    · rw [hphase.1 hz]
    · exact (hphase.2 hz).1
  have hple2 : blo ≤ p.2.1 := by
    by_cases hz : p.2.2 = 0
    · rw [hphase.1 hz]
    · exact (hphase.2 hz).2.1
  set back := extendBack a b alo blo p.1 p.2.1 with hbackdef
  obtain ⟨hbk1, hbk2, hbk3⟩ := extendBack_ok a b alo blo p.1 p.2.1 hple1 hple2
  rw [← hbackdef] at hbk1 hbk2 hbk3
  -- the combined (backward-extended) block
  have hcomb : alo ≤ p.1 - back ∧ blo ≤ p.2.1 - back ∧
      (p.2.2 ≠ 0 ∨ back ≠ 0 →
        (p.1 - back) + (p.2.2 + back) ≤ ahi ∧
        (p.2.1 - back) + (p.2.2 + back) ≤ bhi ∧
        ∀ t, t < p.2.2 + back →
          a.getD ((p.1 - back) + t) ' ' = b.getD ((p.2.1 - back) + t) ' ') := by
    by_cases hz : p.2.2 = 0
    · have hp : p = (alo, blo, 0) := hphase.1 hz
      have hp1 : p.1 = alo := by rw [hp]
      have hback0 : back = 0 := by omega
      refine ⟨by omega, by omega, ?_⟩
      intro hne
      rcases hne with h | h
      · exact absurd hz h
      · exact absurd hback0 h
    · obtain ⟨hq1, hq2, hq3, hq4, hq5⟩ := hphase.2 hz
      refine ⟨by omega, by omega, ?_⟩
      intro _
      refine ⟨by omega, by omega, ?_⟩
      intro t htlt
      rcases Nat.lt_or_ge t back with hlt | hge
      · have hidx1 : p.1 - back + t = p.1 - 1 - (back - 1 - t) := by omega
        have hidx2 : p.2.1 - back + t = p.2.1 - 1 - (back - 1 - t) := by omega
        rw [hidx1, hidx2]
        exact hbk3 (back - 1 - t) (by omega)
      · obtain ⟨u, hu⟩ : ∃ u, t = back + u := ⟨t - back, by omega⟩
        subst hu
        have hidx1 : p.1 - back + (back + u) = p.1 + u := by omega
        have hidx2 : p.2.1 - back + (back + u) = p.2.1 + u := by omega
        rw [hidx1, hidx2]
        exact hq5 u (by omega)
  obtain ⟨hca, hcb, hcc⟩ := hcomb
  intro hne
  simp only [findLongestMatch, extendFwd, ← hpdef, ← hbackdef] at hne ⊢
  set s0 := p.2.2 + back with hs0def
  obtain ⟨hf1, hf2⟩ := extendFwdAux_ok a b ahi bhi (p.1 - back) (p.2.1 - back)
    (ahi - (p.1 - back + s0)) s0
  set sF := extendFwdAux a b ahi bhi (p.1 - back) (p.2.1 - back)
    (ahi - (p.1 - back + s0)) s0 with hsFdef
  refine ⟨hca, hcb, ?_, ?_, ?_⟩
  · rcases Nat.lt_or_ge s0 sF with hlt | hge
    · have := hf2 (sF - 1) (by omega) (by omega)
      omega
    · have hsF : sF = s0 := by omega
      rw [hsF]
      by_cases hzz : p.2.2 ≠ 0 ∨ back ≠ 0
      · exact (hcc hzz).1
      · push_neg at hzz
        omega
  · rcases Nat.lt_or_ge s0 sF with hlt | hge
    · have := hf2 (sF - 1) (by omega) (by omega)
      omega
    · have hsF : sF = s0 := by omega
      rw [hsF]
      by_cases hzz : p.2.2 ≠ 0 ∨ back ≠ 0
      · exact (hcc hzz).2.1
      · push_neg at hzz
        omega
  · intro t htlt
    rcases Nat.lt_or_ge t s0 with hlt | hge
    · have hzz : p.2.2 ≠ 0 ∨ back ≠ 0 := by
        by_contra hno
        push_neg at hno
        omega
      exact (hcc hzz).2.2 t hlt
    · exact (hf2 t hge htlt).2.2

end Difflib
namespace Difflib

/-- Python slice `l[lo:hi]`. -/
def slice (l : List Char) (lo hi : Nat) : List Char :=
  (l.drop lo).take (hi - lo)

theorem slice_length (l : List Char) (lo hi : Nat) (h1 : lo ≤ hi) (h2 : hi ≤ l.length) :
    (slice l lo hi).length = hi - lo :=
  by
  unfold slice
  rw [List.length_take, List.length_drop]
  omega

theorem slice_split (l : List Char) (lo mid hi : Nat) (h1 : lo ≤ mid) (h2 : mid ≤ hi) :
    slice l lo hi = slice l lo mid ++ slice l mid hi :=
  by
  unfold slice
  have hsum : hi - lo = (mid - lo) + (hi - mid) := by omega
  rw [hsum, List.take_add, List.drop_drop]
  have hmid : lo + (mid - lo) = mid := by omega
  rw [hmid]

theorem getD_drop (l : List Char) : ∀ (i n : Nat),
    (l.drop i).getD n ' ' = l.getD (i + n) ' ' :=
  by
  induction l with
  | nil => intro i n; simp
  | cons c rest ih =>
      intro i n
      cases i with
      | zero => simp
      | succ m =>
          rw [List.drop_succ_cons, ih m n]
          have harith : m + 1 + n = (m + n) + 1 := by omega
          rw [harith, List.getD_cons_succ]

theorem getD_take (l : List Char) : ∀ (k n : Nat), n < k →
    (l.take k).getD n ' ' = l.getD n ' ' :=
  by
  induction l with
  | nil => intro k n _; simp
  | cons c rest ih =>
      intro k n hn
      cases k with
      | zero => omega
      | succ m =>
          rw [List.take_succ_cons]
          cases n with
          | zero => rfl
          | succ n' =>
              rw [List.getD_cons_succ, List.getD_cons_succ]
              exact ih m n' (by omega)

theorem slice_getD (l : List Char) (lo hi t : Nat) (ht : t < hi - lo) :
    (slice l lo hi).getD t ' ' = l.getD (lo + t) ' ' :=
  by
  unfold slice
  rw [getD_take _ _ _ ht, getD_drop]

theorem getD_eq_get (l : List Char) : ∀ (n : Nat) (h : n < l.length),
    l.get ⟨n, h⟩ = l.getD n ' ' :=
  by
  induction l with
  | nil => intro n h; simp at h
  | cons c rest ih =>
      intro n h
      cases n with
      | zero => rfl
      | succ m =>
          rw [List.getD_cons_succ]
          exact ih m (by simpa using h)

theorem slice_eq_slice (a b : List Char) (i j k : Nat)
    (ha : i + k ≤ a.length) (hb : j + k ≤ b.length)
    (h : ∀ t, t < k → a.getD (i + t) ' ' = b.getD (j + t) ' ') :
    slice a i (i + k) = slice b j (j + k) :=
  by
  apply List.ext_get
  · rw [slice_length a i (i + k) (by omega) ha,
        slice_length b j (j + k) (by omega) hb]
    omega
  · intro n h1 h2
    rw [getD_eq_get, getD_eq_get]
    have hn : n < k := by
      have := slice_length a i (i + k) (by omega) ha
      omega
    rw [slice_getD a i (i + k) n (by omega), slice_getD b j (j + k) n (by omega)]
    exact h n hn

theorem interCount_append (x1 x2 y1 y2 : List Char) :
    interCount x1 y1 + interCount x2 y2 ≤ interCount (x1 ++ x2) (y1 ++ y2) :=
  by
  unfold interCount
  have hle : ((x1 : Multiset Char) ∩ (y1 : Multiset Char) +
      (x2 : Multiset Char) ∩ (y2 : Multiset Char)) ≤
      ((x1 ++ x2 : List Char) : Multiset Char) ∩ ((y1 ++ y2 : List Char) : Multiset Char) := by
    rw [← Multiset.coe_add, ← Multiset.coe_add, Multiset.le_iff_count]
    intro c
    simp only [Multiset.count_add, Multiset.count_inter]
    omega
  have := Multiset.card_le_card hle
  simpa using this

theorem interCount_self (y : List Char) : interCount y y = y.length :=
  by
  unfold interCount
  have hself : ((y : Multiset Char) ∩ ↑y) = (y : Multiset Char) := by
    ext c
    simp [Multiset.count_inter]
  rw [hself]
  simp

theorem interCount_le_left (a b : List Char) : interCount a b ≤ a.length :=
  by
  unfold interCount
  have := Multiset.card_le_card (Multiset.inter_le_left (s := (a : Multiset Char)) (t := ↑b))
  simpa using this

theorem interCount_le_right (a b : List Char) : interCount a b ≤ b.length :=
  by
  unfold interCount
  have := Multiset.card_le_card (Multiset.inter_le_right (s := (a : Multiset Char)) (t := ↑b))
  simpa using this

theorem matchedTotalAux_le (a b : List Char) :
    ∀ (fuel alo ahi blo bhi : Nat),
      alo ≤ ahi → ahi ≤ a.length → blo ≤ bhi → bhi ≤ b.length →
      matchedTotalAux a b fuel alo ahi blo bhi ≤
        interCount (slice a alo ahi) (slice b blo bhi) :=
  by
  intro fuel
  induction fuel with
  | zero =>
      intro alo ahi blo bhi _ _ _ _
      rw [matchedTotalAux]
      exact Nat.zero_le _
  | succ n ih =>
      intro alo ahi blo bhi halo hA hblo hB
      rw [matchedTotalAux]
      set r := findLongestMatch a b alo ahi blo bhi with hrdef
      by_cases hk : r.2.2 = 0
      · rw [if_pos hk]
        exact Nat.zero_le _
      · rw [if_neg hk]
        obtain ⟨h1, h2, h3, h4, h5⟩ := findLongestMatch_ok a b alo ahi blo bhi halo hk
        rw [← hrdef] at h1 h2 h3 h4 h5
        -- decompose both slices into three pieces around the matched block
        have hsa : slice a alo ahi =
            slice a alo r.1 ++ (slice a r.1 (r.1 + r.2.2) ++ slice a (r.1 + r.2.2) ahi) := by
          rw [← slice_split a r.1 (r.1 + r.2.2) ahi (by omega) h3,
              ← slice_split a alo r.1 ahi h1 (by omega)]
        have hsb : slice b blo bhi =
            slice b blo r.2.1 ++ (slice b r.2.1 (r.2.1 + r.2.2) ++ slice b (r.2.1 + r.2.2) bhi) := by
          rw [← slice_split b r.2.1 (r.2.1 + r.2.2) bhi (by omega) h4,
              ← slice_split b blo r.2.1 bhi h2 (by omega)]
        have hmid : slice a r.1 (r.1 + r.2.2) = slice b r.2.1 (r.2.1 + r.2.2) :=
          slice_eq_slice a b r.1 r.2.1 r.2.2 (by omega) (by omega) h5
        have hmidc : interCount (slice a r.1 (r.1 + r.2.2)) (slice b r.2.1 (r.2.1 + r.2.2)) =
            r.2.2 := by
          rw [hmid, interCount_self, slice_length b r.2.1 (r.2.1 + r.2.2) (by omega) (by omega)]
          omega
        have hsuper : interCount (slice a alo r.1) (slice b blo r.2.1) +
            (r.2.2 + interCount (slice a (r.1 + r.2.2) ahi) (slice b (r.2.1 + r.2.2) bhi)) ≤
            interCount (slice a alo ahi) (slice b blo bhi) := by
          rw [hsa, hsb]
          have hstep1 := interCount_append (slice a r.1 (r.1 + r.2.2))
            (slice a (r.1 + r.2.2) ahi) (slice b r.2.1 (r.2.1 + r.2.2))
            (slice b (r.2.1 + r.2.2) bhi)
          have hstep2 := interCount_append (slice a alo r.1)
            (slice a r.1 (r.1 + r.2.2) ++ slice a (r.1 + r.2.2) ahi)
            (slice b blo r.2.1)
            (slice b r.2.1 (r.2.1 + r.2.2) ++ slice b (r.2.1 + r.2.2) bhi)
          omega
        have hpre : (if alo < r.1 ∧ blo < r.2.1
              then matchedTotalAux a b n alo r.1 blo r.2.1 else 0) ≤
            interCount (slice a alo r.1) (slice b blo r.2.1) := by
          by_cases hg : alo < r.1 ∧ blo < r.2.1
          · rw [if_pos hg]
            exact ih alo r.1 blo r.2.1 (by omega) (by omega) (by omega) (by omega)
          · rw [if_neg hg]
            exact Nat.zero_le _
        have hpost : (if r.1 + r.2.2 < ahi ∧ r.2.1 + r.2.2 < bhi
              then matchedTotalAux a b n (r.1 + r.2.2) ahi (r.2.1 + r.2.2) bhi else 0) ≤
            interCount (slice a (r.1 + r.2.2) ahi) (slice b (r.2.1 + r.2.2) bhi) := by
          by_cases hg : r.1 + r.2.2 < ahi ∧ r.2.1 + r.2.2 < bhi
          · rw [if_pos hg]
            exact ih (r.1 + r.2.2) ahi (r.2.1 + r.2.2) bhi (by omega) hA (by omega) hB
          · rw [if_neg hg]
            exact Nat.zero_le _
        omega

theorem matchedTotal_le_interCount (a b : List Char) :
    matchedTotal a b ≤ interCount a b :=
  by
  have h := matchedTotalAux_le a b (a.length + b.length + 1) 0 a.length 0 b.length
    (Nat.zero_le _) (le_refl _) (Nat.zero_le _) (le_refl _)
  have hsa : slice a 0 a.length = a := by
    unfold slice
    simp
  have hsb : slice b 0 b.length = b := by
    unfold slice
    simp
  rw [hsa, hsb] at h
  exact h

end Difflib

namespace Difflib

theorem calculateRatio_mono (m1 m2 L : Nat) (h : m1 ≤ m2) :
    calculateRatio m1 L ≤ calculateRatio m2 L :=
  by
  unfold calculateRatio
  by_cases hL : L ≠ 0
  · rw [if_pos hL, if_pos hL]
    have hLpos : (0 : ℚ) < L := by
      exact_mod_cast Nat.pos_of_ne_zero hL
    have hm : (m1 : ℚ) ≤ m2 := by exact_mod_cast h
    gcongr
  · rw [if_neg hL, if_neg hL]

theorem ratio_le_quickRatio (x w : List Char) : ratio x w ≤ quickRatio x w :=
  by
  unfold ratio quickRatio
  rw [quickMatches_eq_interCount]
  exact calculateRatio_mono _ _ _ (matchedTotal_le_interCount x w)

theorem quickRatio_le_realQuickRatio (x w : List Char) :
    quickRatio x w ≤ realQuickRatio x w :=
  by
  unfold quickRatio realQuickRatio
  rw [quickMatches_eq_interCount]
  exact calculateRatio_mono _ _ _
    (le_min (interCount_le_left x w) (interCount_le_right x w))

theorem tripleFilter_iff (x w : List Char) (cutoff : ℚ) :
    (cutoff ≤ realQuickRatio x w ∧ cutoff ≤ quickRatio x w ∧ cutoff ≤ ratio x w) ↔
      cutoff ≤ ratio x w :=
  ⟨fun h => h.2.2, fun h =>
    ⟨le_trans h ((ratio_le_quickRatio x w).trans (quickRatio_le_realQuickRatio x w)),
     le_trans h (ratio_le_quickRatio x w), h⟩⟩

theorem pairLtb_true_le (p q : ℚ × List Char) (h : pairLtb p q = true) : p.1 ≤ q.1 :=
  by
  unfold pairLtb at h
  rcases Bool.or_eq_true_iff.mp h with h1 | h2
  · exact le_of_lt (of_decide_eq_true h1)
  · exact le_of_eq (of_decide_eq_true (Bool.and_eq_true_iff.mp h2).1)

theorem pairLtb_false_le (p q : ℚ × List Char) (h : pairLtb p q = false) : q.1 ≤ p.1 :=
  by
  unfold pairLtb at h
  have h1 := (Bool.or_eq_false_iff.mp h).1
  exact le_of_not_lt (of_decide_eq_false h1)

theorem foldl_pair_mem : ∀ (rest : List (ℚ × List Char)) (p : ℚ × List Char),
    rest.foldl (fun acc q => if pairLtb acc q then q else acc) p = p ∨
    rest.foldl (fun acc q => if pairLtb acc q then q else acc) p ∈ rest :=
  by
  intro rest
  induction rest with
  | nil => intro p; exact Or.inl rfl
  | cons q rest ih =>
      intro p
      rw [List.foldl_cons]
      rcases ih (if pairLtb p q then q else p) with h | h
      · rw [h]
        by_cases hpq : pairLtb p q
        · rw [if_pos hpq]
          exact Or.inr (List.mem_cons_self q rest)
        · rw [if_neg hpq]
          exact Or.inl rfl
      · exact Or.inr (List.mem_cons_of_mem q h)

theorem foldl_pair_ge : ∀ (rest : List (ℚ × List Char)) (p x : ℚ × List Char),
    x ∈ p :: rest →
    x.1 ≤ (rest.foldl (fun acc q => if pairLtb acc q then q else acc) p).1 :=
  by
  intro rest
  induction rest with
  | nil =>
      intro p x hx
      rw [List.mem_singleton] at hx
      subst hx
      exact le_refl _
  | cons q rest ih =>
      intro p x hx
      rw [List.foldl_cons]
      have hstep1 : p.1 ≤ (if pairLtb p q then q else p).1 := by
        by_cases hpq : pairLtb p q
        · rw [if_pos hpq]
          exact pairLtb_true_le p q hpq
        · rw [if_neg hpq]
      have hstep2 : q.1 ≤ (if pairLtb p q then q else p).1 := by
        by_cases hpq : pairLtb p q
        · rw [if_pos hpq]
        · rw [if_neg hpq]
          exact pairLtb_false_le p q (Bool.not_eq_true _ ▸ eq_false_of_ne_true hpq)
      have hacc := ih (if pairLtb p q then q else p) (if pairLtb p q then q else p)
        (List.mem_cons_self _ _)
      rcases List.mem_cons.mp hx with hxp | hx'
      · subst hxp
        exact le_trans hstep1 hacc
      · rcases List.mem_cons.mp hx' with hxq | hxr
        · subst hxq
          exact le_trans hstep2 hacc
        · exact ih (if pairLtb p q then q else p) x (List.mem_cons_of_mem _ hxr)

theorem getCloseMatches1_filter (word : List Char) (poss : List (List Char)) (cutoff : ℚ) :
    getCloseMatches1 word poss cutoff =
      (pyMax1 (poss.filterMap (fun x =>
        if cutoff ≤ ratio x word then some (ratio x word, x) else none))).map Prod.snd :=
  by
  unfold getCloseMatches1
  have hfun : (fun x => if cutoff ≤ realQuickRatio x word ∧ cutoff ≤ quickRatio x word ∧
        cutoff ≤ ratio x word then some (ratio x word, x) else none) =
      (fun x => if cutoff ≤ ratio x word then some (ratio x word, x) else none) :=
    funext fun x => if_congr (tripleFilter_iff x word cutoff) rfl rfl
  rw [hfun]

theorem getCloseMatches1_none_iff (word : List Char) (poss : List (List Char)) (cutoff : ℚ) :
    getCloseMatches1 word poss cutoff = none ↔ ∀ x ∈ poss, ratio x word < cutoff :=
  by
  rw [getCloseMatches1_filter]
  constructor
  · intro h x hx
    by_contra hno
    have hle : cutoff ≤ ratio x word := le_of_not_lt hno
    have hmem : (ratio x word, x) ∈ poss.filterMap (fun x =>
        if cutoff ≤ ratio x word then some (ratio x word, x) else none) := by
      rw [List.mem_filterMap]
      exact ⟨x, hx, by rw [if_pos hle]⟩
    rcases hres : poss.filterMap (fun x =>
        if cutoff ≤ ratio x word then some (ratio x word, x) else none) with _ | ⟨p, rest⟩
    · rw [hres] at hmem
      simp at hmem
    · rw [hres] at h
      unfold pyMax1 at h
      simp at h
  · intro h
    have hnil : poss.filterMap (fun x =>
        if cutoff ≤ ratio x word then some (ratio x word, x) else none) = [] := by
      rw [List.filterMap_eq_nil_iff]
      intro x hx
      rw [if_neg (not_le_of_lt (h x hx))]
    rw [hnil]
    rfl

theorem getCloseMatches1_some_spec (word : List Char) (poss : List (List Char))
    (cutoff : ℚ) (m : List Char) (h : getCloseMatches1 word poss cutoff = some m) :
    m ∈ poss ∧ cutoff ≤ ratio m word ∧
      ∀ x ∈ poss, ratio x word ≤ ratio m word :=
  by
  rw [getCloseMatches1_filter] at h
  rcases hres : poss.filterMap (fun x =>
      if cutoff ≤ ratio x word then some (ratio x word, x) else none) with _ | ⟨p, rest⟩
  · rw [hres] at h
    simp [pyMax1] at h
  · rw [hres] at h
    set best := rest.foldl (fun acc q => if pairLtb acc q then q else acc) p with hbest
    have hm : best.2 = m := Option.some.inj h
    have hbmem : best ∈ p :: rest := by
      rcases foldl_pair_mem rest p with h1 | h1
      · rw [← hbest] at h1
        rw [h1]
        exact List.mem_cons_self p rest
      · rw [← hbest] at h1
        exact List.mem_cons_of_mem p h1
    have hbmem' : best ∈ poss.filterMap (fun x =>
        if cutoff ≤ ratio x word then some (ratio x word, x) else none) := by
      rw [hres]
      exact hbmem
    rw [List.mem_filterMap] at hbmem'
    obtain ⟨x, hxposs, hxeq⟩ := hbmem'
    by_cases hc : cutoff ≤ ratio x word
    · rw [if_pos hc, Option.some.injEq] at hxeq
      have hx2 : best.2 = x := by rw [← hxeq]
      have hx1 : best.1 = ratio x word := by rw [← hxeq]
      have hmx : m = x := by rw [← hm, hx2]
      subst hmx
      refine ⟨hxposs, hx1 ▸ hc, ?_⟩
      intro y hy
      by_cases hcy : cutoff ≤ ratio y word
      · have hymem : (ratio y word, y) ∈ p :: rest := by
          rw [← hres, List.mem_filterMap]
          exact ⟨y, hy, by rw [if_pos hcy]⟩
        have := foldl_pair_ge rest p (ratio y word, y) hymem
        rw [← hbest] at this
        calc ratio y word = (ratio y word, y).1 := rfl
          _ ≤ best.1 := this
          _ = ratio m word := hx1
      · have : ratio y word < cutoff := lt_of_not_le hcy
        have hc' : cutoff ≤ ratio m word := hx1 ▸ hc
        exact le_of_lt (lt_of_lt_of_le this hc')
    · rw [if_neg hc] at hxeq
      exact absurd hxeq (Option.noConfusion)

end Difflib

theorem string_mk_data (s : String) : String.mk s.data = s :=
  by cases s; rfl

theorem cacheHasCat_of_ne_nil : ∀ (cache : NameCache) (cat : String),
    cacheCat cache cat ≠ [] → cacheHasCat cache cat = true :=
  by
  intro cache
  induction cache with
  | nil =>
      intro cat h
      exact absurd rfl h
  | cons p rest ih =>
      intro cat h
      obtain ⟨k, v⟩ := p
      rw [cacheCat] at h
      rw [cacheHasCat]
      by_cases hk : k = cat
      · rw [decide_eq_true hk, Bool.true_or]
      · rw [if_neg hk] at h
        rw [ih cat h, Bool.or_true]

theorem slookup_mem : ∀ (l : List (String × String)) (k v : String),
    slookup l k = some v → (k, v) ∈ l :=
  by
  intro l
  induction l with
  | nil =>
      intro k v h
      rw [slookup] at h
      exact absurd h (Option.noConfusion)
  | cons p rest ih =>
      intro k v h
      obtain ⟨k', v'⟩ := p
      rw [slookup] at h
      by_cases hk : k' = k
      · rw [if_pos hk, Option.some.injEq] at h
        subst hk
        subst h
        exact List.mem_cons_self _ _
      · rw [if_neg hk] at h
        exact List.mem_cons_of_mem _ (ih k v h)

theorem slookup_isSome_of_mem : ∀ (l : List (String × String)) (k v : String),
    (k, v) ∈ l → (slookup l k).isSome = true :=
  by
  intro l
  induction l with
  | nil =>
      intro k v h
      simp at h
  | cons p rest ih =>
      intro k v h
      obtain ⟨k', v'⟩ := p
      rw [slookup]
      by_cases hk : k' = k
      · rw [if_pos hk]
        rfl
      · rw [if_neg hk]
        rcases List.mem_cons.mp h with heq | hmem
        · exact absurd (congrArg Prod.fst heq).symm hk
        · exact ih k v hmem

theorem fuzzyMatch_none (cache : NameCache) (cat nameOrId : String)
    (hall : ∀ e ∈ cacheCat cache cat,
      Difflib.ratio e.1.data (pyLower nameOrId).data < 3 / 5) :
    fuzzyMatch cache cat nameOrId = none :=
  by
  have hgcm : Difflib.getCloseMatches1 (pyLower nameOrId).data
      ((cacheCat cache cat).map (fun e => e.1.data)) (3 / 5) = none := by
    rw [Difflib.getCloseMatches1_none_iff]
    intro x hx
    rw [List.mem_map] at hx
    obtain ⟨e, he, hex⟩ := hx
    rw [← hex]
    exact hall e he
  simp only [fuzzyMatch, hgcm]
  rw [ite_self]

theorem resolveCore_fuzzy_notfound (cache : NameCache) (cat nameOrId : String)
    (apiEffect : Effect) (notFound : String)
    (hmiss : truthyStr (slookup (cacheCat cache cat) (pyLower nameOrId)) = false)
    (hall : ∀ e ∈ cacheCat cache cat,
      Difflib.ratio e.1.data (pyLower nameOrId).data < 3 / 5) :
    resolveCore cache cat nameOrId true true apiEffect none notFound =
      ⟨.error notFound, [.cacheLookup cat (pyLower nameOrId), apiEffect]⟩ :=
  by
  have h1 : resolveCore cache cat nameOrId true true apiEffect none notFound =
      (if truthyStr (slookup (cacheCat cache cat) (pyLower nameOrId)) then
        (⟨.ok ((slookup (cacheCat cache cat) (pyLower nameOrId)).getD ""),
          [.cacheLookup cat (pyLower nameOrId)]⟩ : ResolveRun)
       else resolveFuzzyTail cache cat nameOrId true
         ([.cacheLookup cat (pyLower nameOrId)] ++ [apiEffect]) notFound) := rfl
  rw [h1, hmiss, if_neg Bool.false_ne_true]
  simp only [resolveFuzzyTail, fuzzyMatch_none cache cat nameOrId hall]
  rfl

theorem resolveCore_fuzzy_found (cache : NameCache) (cat nameOrId : String)
    (apiEffect : Effect) (notFound : String)
    (hmiss : truthyStr (slookup (cacheCat cache cat) (pyLower nameOrId)) = false)
    (hids : ∀ p ∈ cacheCat cache cat, p.2 ≠ "")
    (hex : ∃ e ∈ cacheCat cache cat,
      3 / 5 ≤ Difflib.ratio e.1.data (pyLower nameOrId).data) :
    ∃ mn fid, slookup (cacheCat cache cat) mn = some fid ∧
      3 / 5 ≤ Difflib.ratio mn.data (pyLower nameOrId).data ∧
      (∀ e ∈ cacheCat cache cat,
        Difflib.ratio e.1.data (pyLower nameOrId).data ≤
          Difflib.ratio mn.data (pyLower nameOrId).data) ∧
      resolveCore cache cat nameOrId true true apiEffect none notFound =
        ⟨.ok fid, [.cacheLookup cat (pyLower nameOrId), apiEffect,
          .notice ("Did you mean '" ++ mn ++ "'? Using that instead of '" ++
            nameOrId ++ "'.")]⟩ :=
  by
  obtain ⟨e0, he0, hre0⟩ := hex
  have hhas : cacheHasCat cache cat = true :=
    cacheHasCat_of_ne_nil cache cat (List.ne_nil_of_mem he0)
  have hnn : Difflib.getCloseMatches1 (pyLower nameOrId).data
      ((cacheCat cache cat).map (fun e => e.1.data)) (3 / 5) ≠ none := by
    intro hnone
    rw [Difflib.getCloseMatches1_none_iff] at hnone
    have := hnone e0.1.data (List.mem_map.mpr ⟨e0, he0, rfl⟩)
    exact absurd hre0 (not_le_of_lt this)
  obtain ⟨m, hm⟩ := Option.ne_none_iff_exists'.mp hnn
  obtain ⟨hmposs, hmratio, hmmax⟩ :=
    Difflib.getCloseMatches1_some_spec (pyLower nameOrId).data
      ((cacheCat cache cat).map (fun e => e.1.data)) (3 / 5) m hm
  obtain ⟨e1, he1, he1d⟩ := List.mem_map.mp hmposs
  have hkey : String.mk m = e1.1 := by
    rw [← he1d, string_mk_data]
  have hsome : (slookup (cacheCat cache cat) (String.mk m)).isSome = true := by
    rw [hkey]
    exact slookup_isSome_of_mem (cacheCat cache cat) e1.1 e1.2
      (by rw [Prod.mk.eta]; exact he1)
  obtain ⟨fid, hsl⟩ := Option.isSome_iff_exists.mp hsome
  have hfidmem : (String.mk m, fid) ∈ cacheCat cache cat :=
    slookup_mem (cacheCat cache cat) (String.mk m) fid hsl
  have hfid : fid ≠ "" := hids (String.mk m, fid) hfidmem
  refine ⟨String.mk m, fid, hsl, ?_, ?_, ?_⟩
  · exact hmratio
  · intro e he
    exact hmmax e.1.data (List.mem_map.mpr ⟨e, he, rfl⟩)
  · have h1 : resolveCore cache cat nameOrId true true apiEffect none notFound =
        (if truthyStr (slookup (cacheCat cache cat) (pyLower nameOrId)) then
          (⟨.ok ((slookup (cacheCat cache cat) (pyLower nameOrId)).getD ""),
            [.cacheLookup cat (pyLower nameOrId)]⟩ : ResolveRun)
         else resolveFuzzyTail cache cat nameOrId true
           ([.cacheLookup cat (pyLower nameOrId)] ++ [apiEffect]) notFound) := rfl
    rw [h1, hmiss, if_neg Bool.false_ne_true]
    have hfm : fuzzyMatch cache cat nameOrId = some (String.mk m, fid) := by
      simp only [fuzzyMatch, hhas, hm, hsl]
      rfl
    simp only [resolveFuzzyTail, hfm]
    rw [if_pos trivial, if_pos hfid]
    rfl

/-- Concrete name cache exercising the spec's fuzzy-resolution example. -/
def fuzzyExampleCache : NameCache :=
  [("agents", [("support bot", "id-1")]),
   ("conversations", [("support bot", "id-1")]),
   ("databases", [("support bot", "id-1")]),
   ("companies", [("support bot", "id-1")])]

/-- C2: for an input name that is not UUID-shaped, misses the cache lookup
for its entity kind, and is not resolved by the API step, each of the four
resolvers with fuzzy matching enabled either (when some cached name reaches
the 0.6 similarity cutoff against the lower-cased input) returns the cached
ID of a closest cached name — one whose ratio is at least 3/5 and is maximal
over the category's cached names — announced with a single "Did you mean"
notice, or (when no cached name reaches the cutoff) raises the category's
"not found" error naming the corresponding list command.  The cached-ID
hypotheses `p.2 ≠ ""` reflect the claim's premise that the cache maps names
to real (truthy) IDs. -/
theorem C2_fuzzy_resolution (cache : NameCache) (api : Option JVal) (nameOrId : String)
    (hnu : isUuid nameOrId = false)
    (hmissA : truthyStr (slookup (cacheCat cache "agents") (pyLower nameOrId)) = false)
    (hmissC : truthyStr (slookup (cacheCat cache "conversations") (pyLower nameOrId)) = false)
    (hmissD : truthyStr (slookup (cacheCat cache "databases") (pyLower nameOrId)) = false)
    (hmissO : truthyStr (slookup (cacheCat cache "companies") (pyLower nameOrId)) = false)
    (hapiA : agentApiStep api nameOrId = none)
    (hapiC : listingApiStep "title" api nameOrId = none)
    (hapiD : databaseApiStep api nameOrId = none)
    (hapiO : listingApiStep "name" api nameOrId = none)
    (hidsA : ∀ p ∈ cacheCat cache "agents", p.2 ≠ "")
    (hidsC : ∀ p ∈ cacheCat cache "conversations", p.2 ≠ "")
    (hidsD : ∀ p ∈ cacheCat cache "databases", p.2 ≠ "")
    (hidsO : ∀ p ∈ cacheCat cache "companies", p.2 ≠ "") :
    ((∃ e ∈ cacheCat cache "agents",
        3 / 5 ≤ Difflib.ratio e.1.data (pyLower nameOrId).data) →
      ∃ mn fid, slookup (cacheCat cache "agents") mn = some fid ∧
        3 / 5 ≤ Difflib.ratio mn.data (pyLower nameOrId).data ∧
        (∀ e ∈ cacheCat cache "agents",
          Difflib.ratio e.1.data (pyLower nameOrId).data ≤
            Difflib.ratio mn.data (pyLower nameOrId).data) ∧
        resolveAgent cache api nameOrId true true =
          ⟨.ok fid, [.cacheLookup "agents" (pyLower nameOrId),
            .apiCall "GET" ("/api/v1/agent/by-name/" ++ nameOrId),
            .notice ("Did you mean '" ++ mn ++ "'? Using that instead of '" ++
              nameOrId ++ "'.")]⟩) ∧
    ((∀ e ∈ cacheCat cache "agents",
        Difflib.ratio e.1.data (pyLower nameOrId).data < 3 / 5) →
      resolveAgent cache api nameOrId true true =
        ⟨.error ("Agent '" ++ nameOrId ++
            "' not found. Use 'knowrithm agent list' to see available agents."),
          [.cacheLookup "agents" (pyLower nameOrId),
           .apiCall "GET" ("/api/v1/agent/by-name/" ++ nameOrId)]⟩) ∧
    ((∃ e ∈ cacheCat cache "conversations",
        3 / 5 ≤ Difflib.ratio e.1.data (pyLower nameOrId).data) →
      ∃ mn fid, slookup (cacheCat cache "conversations") mn = some fid ∧
        3 / 5 ≤ Difflib.ratio mn.data (pyLower nameOrId).data ∧
        (∀ e ∈ cacheCat cache "conversations",
          Difflib.ratio e.1.data (pyLower nameOrId).data ≤
            Difflib.ratio mn.data (pyLower nameOrId).data) ∧
        resolveConversation cache api nameOrId true true =
          ⟨.ok fid, [.cacheLookup "conversations" (pyLower nameOrId),
            .apiCall "GET" "/api/v1/conversation",
            .notice ("Did you mean '" ++ mn ++ "'? Using that instead of '" ++
              nameOrId ++ "'.")]⟩) ∧
    ((∀ e ∈ cacheCat cache "conversations",
        Difflib.ratio e.1.data (pyLower nameOrId).data < 3 / 5) →
      resolveConversation cache api nameOrId true true =
        ⟨.error ("Conversation '" ++ nameOrId ++
            "' not found. Use 'knowrithm conversation list' to see available conversations."),
          [.cacheLookup "conversations" (pyLower nameOrId),
           .apiCall "GET" "/api/v1/conversation"]⟩) ∧
    ((∃ e ∈ cacheCat cache "databases",
        3 / 5 ≤ Difflib.ratio e.1.data (pyLower nameOrId).data) →
      ∃ mn fid, slookup (cacheCat cache "databases") mn = some fid ∧
        3 / 5 ≤ Difflib.ratio mn.data (pyLower nameOrId).data ∧
        (∀ e ∈ cacheCat cache "databases",
          Difflib.ratio e.1.data (pyLower nameOrId).data ≤
            Difflib.ratio mn.data (pyLower nameOrId).data) ∧
        resolveDatabase cache api nameOrId true true =
          ⟨.ok fid, [.cacheLookup "databases" (pyLower nameOrId),
            .apiCall "GET" "/api/v1/database-connection",
            .notice ("Did you mean '" ++ mn ++ "'? Using that instead of '" ++
              nameOrId ++ "'.")]⟩) ∧
    ((∀ e ∈ cacheCat cache "databases",
        Difflib.ratio e.1.data (pyLower nameOrId).data < 3 / 5) →
      resolveDatabase cache api nameOrId true true =
        ⟨.error ("Database '" ++ nameOrId ++
            "' not found. Use 'knowrithm database list' to see available connections."),
          [.cacheLookup "databases" (pyLower nameOrId),
           .apiCall "GET" "/api/v1/database-connection"]⟩) ∧
    ((∃ e ∈ cacheCat cache "companies",
        3 / 5 ≤ Difflib.ratio e.1.data (pyLower nameOrId).data) →
      ∃ mn fid, slookup (cacheCat cache "companies") mn = some fid ∧
        3 / 5 ≤ Difflib.ratio mn.data (pyLower nameOrId).data ∧
        (∀ e ∈ cacheCat cache "companies",
          Difflib.ratio e.1.data (pyLower nameOrId).data ≤
            Difflib.ratio mn.data (pyLower nameOrId).data) ∧
        resolveCompany cache api nameOrId true true =
          ⟨.ok fid, [.cacheLookup "companies" (pyLower nameOrId),
            .apiCall "GET" "/api/v1/super-admin/company",
            .notice ("Did you mean '" ++ mn ++ "'? Using that instead of '" ++
              nameOrId ++ "'.")]⟩) ∧
    ((∀ e ∈ cacheCat cache "companies",
        Difflib.ratio e.1.data (pyLower nameOrId).data < 3 / 5) →
      resolveCompany cache api nameOrId true true =
        ⟨.error ("Company '" ++ nameOrId ++
            "' not found. Use 'knowrithm superadmin companies list' to see available companies."),
          [.cacheLookup "companies" (pyLower nameOrId),
           .apiCall "GET" "/api/v1/super-admin/company"]⟩) :=
  by
  have hAeq : resolveAgent cache api nameOrId true true =
      resolveCore cache "agents" nameOrId true true
        (.apiCall "GET" ("/api/v1/agent/by-name/" ++ nameOrId)) none
        ("Agent '" ++ nameOrId ++
          "' not found. Use 'knowrithm agent list' to see available agents.") := by
    unfold resolveAgent
    rw [hnu, if_neg Bool.false_ne_true, hapiA]
  have hCeq : resolveConversation cache api nameOrId true true =
      resolveCore cache "conversations" nameOrId true true
        (.apiCall "GET" "/api/v1/conversation") none
        ("Conversation '" ++ nameOrId ++
          "' not found. Use 'knowrithm conversation list' to see available conversations.") := by
    unfold resolveConversation
    rw [hnu, if_neg Bool.false_ne_true, hapiC]
  have hDeq : resolveDatabase cache api nameOrId true true =
      resolveCore cache "databases" nameOrId true true
        (.apiCall "GET" "/api/v1/database-connection") none
        ("Database '" ++ nameOrId ++
          "' not found. Use 'knowrithm database list' to see available connections.") := by
    unfold resolveDatabase
    rw [hnu, if_neg Bool.false_ne_true, hapiD]
  have hOeq : resolveCompany cache api nameOrId true true =
      resolveCore cache "companies" nameOrId true true
        (.apiCall "GET" "/api/v1/super-admin/company") none
        ("Company '" ++ nameOrId ++
          "' not found. Use 'knowrithm superadmin companies list' to see available companies.") := by
    unfold resolveCompany
    rw [hnu, if_neg Bool.false_ne_true, hapiO]
  refine ⟨?_, ?_, ?_, ?_, ?_, ?_, ?_, ?_⟩
  · intro hex
    obtain ⟨mn, fid, h1, h2, h3, h4⟩ :=
      resolveCore_fuzzy_found cache "agents" nameOrId _ _ hmissA hidsA hex
    exact ⟨mn, fid, h1, h2, h3, by rw [hAeq]; exact h4⟩
  · intro hall
    rw [hAeq]
    exact resolveCore_fuzzy_notfound cache "agents" nameOrId _ _ hmissA hall
  · intro hex
    obtain ⟨mn, fid, h1, h2, h3, h4⟩ :=
      resolveCore_fuzzy_found cache "conversations" nameOrId _ _ hmissC hidsC hex
    exact ⟨mn, fid, h1, h2, h3, by rw [hCeq]; exact h4⟩
  · intro hall
    rw [hCeq]
    exact resolveCore_fuzzy_notfound cache "conversations" nameOrId _ _ hmissC hall
  · intro hex
    obtain ⟨mn, fid, h1, h2, h3, h4⟩ :=
      resolveCore_fuzzy_found cache "databases" nameOrId _ _ hmissD hidsD hex
    exact ⟨mn, fid, h1, h2, h3, by rw [hDeq]; exact h4⟩
  · intro hall
    rw [hDeq]
    exact resolveCore_fuzzy_notfound cache "databases" nameOrId _ _ hmissD hall
  · intro hex
    obtain ⟨mn, fid, h1, h2, h3, h4⟩ :=
      resolveCore_fuzzy_found cache "companies" nameOrId _ _ hmissO hidsO hex
    exact ⟨mn, fid, h1, h2, h3, by rw [hOeq]; exact h4⟩
  · intro hall
    rw [hOeq]
    exact resolveCore_fuzzy_notfound cache "companies" nameOrId _ _ hmissO hall

/-- Witness for `C2_fuzzy_resolution`: with the cache mapping
`"support bot" ↦ "id-1"`, resolving the typo `"Suport Bot"` (ratio 20/21)
returns `id-1` with the "Did you mean" notice, and resolving
`"Completely Different Name"` (ratio 2/9) raises the not-found error. -/
theorem C2_fuzzy_resolution_witness :
    resolveAgent fuzzyExampleCache none "Suport Bot" true true =
      ⟨.ok "id-1",
       [.cacheLookup "agents" "suport bot",
        .apiCall "GET" "/api/v1/agent/by-name/Suport Bot",
        .notice "Did you mean 'support bot'? Using that instead of 'Suport Bot'."]⟩ ∧
    resolveAgent fuzzyExampleCache none "Completely Different Name" true true =
      ⟨.error "Agent 'Completely Different Name' not found. Use 'knowrithm agent list' to see available agents.",
       [.cacheLookup "agents" "completely different name",
        .apiCall "GET" "/api/v1/agent/by-name/Completely Different Name"]⟩ :=
  by
  constructor
  · have hratio : (3 : ℚ) / 5 ≤
        Difflib.ratio "support bot".data (pyLower "Suport Bot").data := by
      rw [show pyLower "Suport Bot" = "suport bot" from by decide]
      have hmt : Difflib.matchedTotal "support bot".data "suport bot".data = 10 := by
        decide
      unfold Difflib.ratio
      rw [hmt, show "support bot".data.length + "suport bot".data.length = 21 from by decide]
      unfold Difflib.calculateRatio
      norm_num
    obtain ⟨mn, fid, hsl, hge, hmax, heq⟩ :=
      (C2_fuzzy_resolution fuzzyExampleCache none "Suport Bot"
        (by decide) (by decide) (by decide) (by decide) (by decide)
        rfl rfl rfl rfl
        (by decide) (by decide) (by decide) (by decide)).1
      ⟨("support bot", "id-1"), by decide, hratio⟩
    have hce : cacheCat fuzzyExampleCache "agents" = [("support bot", "id-1")] := rfl
    rw [hce, slookup] at hsl
    by_cases hmn : "support bot" = mn
    · rw [if_pos hmn, Option.some.injEq] at hsl
      subst hmn
      subst hsl
      rw [heq]
      decide
    · rw [if_neg hmn, slookup] at hsl
      exact absurd hsl (by simp)
  · have hall : ∀ e ∈ cacheCat fuzzyExampleCache "agents",
        Difflib.ratio e.1.data (pyLower "Completely Different Name").data < 3 / 5 := by
      intro e he
      have hce : cacheCat fuzzyExampleCache "agents" = [("support bot", "id-1")] := rfl
      rw [hce, List.mem_singleton] at he
      subst he
      show Difflib.ratio "support bot".data (pyLower "Completely Different Name").data < 3 / 5
      rw [show pyLower "Completely Different Name" = "completely different name" from by decide]
      have hmt : Difflib.matchedTotal "support bot".data
          "completely different name".data = 4 := by decide
      unfold Difflib.ratio
      rw [hmt, show "support bot".data.length +
        "completely different name".data.length = 36 from by decide]
      unfold Difflib.calculateRatio
      norm_num
    have h2 :=
      (C2_fuzzy_resolution fuzzyExampleCache none "Completely Different Name"
        (by decide) (by decide) (by decide) (by decide) (by decide)
        rfl rfl rfl rfl
        (by decide) (by decide) (by decide) (by decide)).2.1 hall
    rw [h2]
    decide
